import Mathlib

/-!
# The micro-benchmark harness of re2 (`util/benchmark.cc`)

A shallow embedding of the harness and theorems about it.

Conventions of the embedding.

* `int` is a 32-bit and `int64` a 64-bit two's-complement integer.  Values are
  carried as `Int`; every arithmetic result is reduced with `wrap32` / `wrap64`,
  so an overflowing operation wraps around (the behaviour of the usual
  compilers for the signed overflow the C++ standard leaves undefined).
* `/` on integers is C++ division: it truncates toward zero (`Int.tdiv`).
  Dividing by zero has no result (`Res.divByZero`).
* The clock is a sequence of readings `clk : Nat → Int`; the `i`-th call of
  `nsec` returns `clk i`, and the number of calls made so far is part of the
  state (`World.tick`).
* A benchmark body is an opaque callable; the harness sees it only through
  the calls it makes to the body-facing functions, so a body is modelled as the
  list of those calls (depending on the arguments it is given).
* Loops carry fuel.  `Res.fuel w` means that the fuel was used up in state `w`.
-/

namespace Re2Bench

/-! ## Machine integers -/

/-- Reduction of an integer to a signed 32-bit value (C++ `int`). -/
def wrap32 (x : Int) : Int := (x + 2147483648) % 4294967296 - 2147483648

/-- Reduction of an integer to a signed 64-bit value (C++ `int64`). -/
def wrap64 (x : Int) : Int :=
  (x + 9223372036854775808) % 18446744073709551616 - 9223372036854775808

/-- The values of a C++ `int`. -/
def isInt32 (x : Int) : Prop := -2147483648 ≤ x ∧ x ≤ 2147483647

/-- The values of an `int64`. -/
def isInt64 (x : Int) : Prop := -9223372036854775808 ≤ x ∧ x ≤ 9223372036854775807

instance (x : Int) : Decidable (isInt32 x) := by unfold isInt32; infer_instance

instance (x : Int) : Decidable (isInt64 x) := by unfold isInt64; infer_instance

/-! ## Data model -/

/-- A call a benchmark body makes to the harness while it runs. -/
inductive Call where
  | setBytes (x : Int)
  | setItems (n : Int)
  | stopTiming
  | startTiming
  deriving DecidableEq, Repr

/-- Modelled from the spec: the class `testing::Benchmark` is declared in
`util/benchmark.h`, which is not among the sources.  Its fields are the ones
`benchmark.cc` reads: the name, the two callable forms (`fn` takes the
iteration count, `fnr` the iteration count and the size; a null pointer is
`none`), the size range and the thread range. -/
structure Benchmark where
  name : String
  fn : Option (Int → List Call)
  fnr : Option (Int → Int → List Call)
  lo : Int
  hi : Int
  threadlo : Int
  threadhi : Int

/-- The size suffix `suf` built by `RunBench`: empty, `/<q>M`, `/<q>K` or `/<siz>`. -/
inductive Suffix where
  | empty
  | mega (q : Int)
  | kilo (q : Int)
  | raw (siz : Int)
  deriving DecidableEq, Repr

/-- The characters `snprintf` writes for a suffix. -/
def Suffix.render : Suffix → String
  | .empty => ""
  | .mega q => "/" ++ toString q ++ "M"
  | .kilo q => "/" ++ toString q ++ "K"
  | .raw siz => "/" ++ toString siz

/-- One line printed by `RunBench`: name, suffix, iteration count, `ns/n`, and
the operands `(bytes, ns)` of the throughput field when that field is printed
(its value is a floating-point quotient, which is not modelled). -/
structure Line where
  name : String
  suf : Suffix
  n : Int
  nsPerOp : Int
  mb : Option (Int × Int)
  deriving DecidableEq, Repr

/-- A clock: the reading returned by each successive call of `nsec`. -/
abbrev Clock := Nat → Int

/-- The mutable state of the process during the run phase: the four file-level
variables `bytes`, `ns`, `t0`, `items`, the number of clock readings taken,
what was written to standard output and to standard error, and a ghost log of
the trials run (name, iteration count, size), one entry per call of `runN`. -/
structure World where
  bytes : Int
  ns : Int
  t0 : Int
  items : Int
  tick : Nat
  out : List Line
  err : List String
  trials : List (String × Int × Int)
  deriving DecidableEq, Repr

/-- The state at process start: zero-initialised statics, nothing printed. -/
def World.init : World :=
  { bytes := 0, ns := 0, t0 := 0, items := 0, tick := 0, out := [], err := [], trials := [] }

/-- How a computation ends: normally with a value, by `exit(code)`, by an
integer division by zero, in a loop that never exits (`hang`), or with the
fuel of the embedding used up (`fuel`, with the state reached by then). -/
inductive Res (α : Type) where
  | ok (a : α)
  | exit (code : Int) (w : World)
  | divByZero (w : World)
  | hang (w : World)
  | fuel (w : World)
  deriving DecidableEq, Repr

/-- Sequencing: the second computation runs only when the first ended normally. -/
def Res.bind {α β : Type} : Res α → (α → Res β) → Res β
  | .ok a, f => f a
  | .exit c w, _ => .exit c w
  | .divByZero w, _ => .divByZero w
  | .hang w, _ => .hang w
  | .fuel w, _ => .fuel w

/-- The state in which the fuel was used up, when that is how the computation
ended. -/
def Res.fuelState {α : Type} : Res α → Option World
  | .fuel w => some w
  | _ => none

/-! ## Registry -/

/-- Capacity of the array `benchmarks`. -/
def maxBenchmarks : Nat := 10000

/-- The clamping of `Benchmark::Register`: `if(lo < 1) lo = 1; if(hi < lo) hi = lo;`. -/
def clampRange (b : Benchmark) : Benchmark :=
  let b1 := if b.lo < 1 then { b with lo := 1 } else b
  if b1.hi < b1.lo then { b1 with hi := b1.lo } else b1

/-- Source `Benchmark::Register`.  The registry is the list of the first `nbenchmarks`
entries of the array `benchmarks`; the array holds pointers, so the entry
shows the range as clamped.  Storing at index `nbenchmarks` is possible only
inside the array: there is no result when the array is full. -/
def Register (benchmarks : List Benchmark) (b : Benchmark) : Option (List Benchmark) :=
  if benchmarks.length < maxBenchmarks then some (benchmarks ++ [clampRange b]) else none

/-! ## Clock and timing accumulator -/

/-- Source `nsec`: the next clock reading; the state records that a reading was taken. -/
def nsec (clk : Clock) (w : World) : Int × World :=
  (clk w.tick, { w with tick := w.tick + 1 })

/-- Source `SetBenchmarkBytesProcessed`: `bytes = x;`. -/
def SetBenchmarkBytesProcessed (x : Int) (w : World) : World :=
  { w with bytes := x }

/-- The statement `ns += nsec() - t0;` (in `StopBenchmarkTiming` and in `runN`). -/
def addSpan (clk : Clock) (w : World) : World :=
  let r := nsec clk w
  { r.2 with ns := wrap64 (r.2.ns + wrap64 (r.1 - r.2.t0)) }

/-- Source `StopBenchmarkTiming`: `if(t0 != 0) ns += nsec() - t0; t0 = 0;`. -/
def StopBenchmarkTiming (clk : Clock) (w : World) : World :=
  let w1 := if w.t0 ≠ 0 then addSpan clk w else w
  { w1 with t0 := 0 }

/-- Source `StartBenchmarkTiming`: `if(t0 == 0) t0 = nsec();`. -/
def StartBenchmarkTiming (clk : Clock) (w : World) : World :=
  if w.t0 = 0 then
    let r := nsec clk w
    { r.2 with t0 := r.1 }
  else w

/-- Source `SetBenchmarkItemsProcessed`: `items = n;`. -/
def SetBenchmarkItemsProcessed (n : Int) (w : World) : World :=
  { w with items := n }

/-- One call of the body into the harness. -/
def doCall (clk : Clock) (w : World) : Call → World
  | .setBytes x => SetBenchmarkBytesProcessed x w
  | .setItems n => SetBenchmarkItemsProcessed n w
  | .stopTiming => StopBenchmarkTiming clk w
  | .startTiming => StartBenchmarkTiming clk w

/-- Running a body: its calls into the harness, in order. -/
def runBody (clk : Clock) (calls : List Call) (w : World) : World :=
  calls.foldl (doCall clk) w

/-- Source `runN`: reset the accumulator, take the start reading, run the body (`fn`
when present, else `fnr`, else the diagnostic and `exit(2)`), and add the last
span when timing is still active. -/
def runN (clk : Clock) (b : Benchmark) (n siz : Int) (w : World) : Res World :=
  let w0 := { w with bytes := 0, items := 0, ns := 0, trials := w.trials ++ [(b.name, n, siz)] }
  let r := nsec clk w0
  let w1 := { r.2 with t0 := r.1 }
  let finish (w2 : World) : Res World :=
    if w2.t0 ≠ 0 then .ok (addSpan clk w2) else .ok w2
  match b.fn with
  | some f => finish (runBody clk (f n) w1)
  | none =>
    match b.fnr with
    | some g => finish (runBody clk (g n siz) w1)
    | none => .exit 2 { w1 with err := w1.err ++ [b.name ++ ": missing function\n"] }

/-! ## Rounding of the iteration count -/

/-- The loop `while(base*10 < n) base *= 10;` of `round`, with fuel: the value
of `base` when the loop exits, or `none` when the fuel is used up first. -/
def roundLoop : Nat → Int → Int → Option Int
  | 0, _, _ => none
  | fuel + 1, base, n =>
    if wrap32 (base * 10) < n then roundLoop fuel (wrap32 (base * 10)) n else some base

/-- Fuel that decides the loop of `round`: after 32 multiplications by ten a
32-bit `base` is `0` and stays `0`, so a loop that has not exited after 33
tests never exits (`roundLoop_fuel`, `roundLoop_never`). -/
def roundFuel : Nat := 33

/-- Source `round`: the loop, then `if(n < 2*base) return 2*base; if(n < 5*base)
return 5*base; return 10*base;`.  The result is `none` when the loop never
exits. -/
def round (n : Int) : Option Int :=
  match roundLoop roundFuel 1 n with
  | none => none
  | some base =>
    if n < wrap32 (2 * base) then some (wrap32 (2 * base))
    else if n < wrap32 (5 * base) then some (wrap32 (5 * base))
    else some (wrap32 (10 * base))

/-! ## Calibration driver -/

/-- The size suffix of `RunBench`: present when the descriptor has `fnr` or
`lo != hi`; `siz/(1<<20)` with `M`, `siz/(1<<10)` with `K`, or `siz`. -/
def sizeSuffix (b : Benchmark) (siz : Int) : Suffix :=
  if b.fnr.isSome ∨ b.lo ≠ b.hi then
    if siz ≥ 1048576 then .mega (Int.tdiv siz 1048576)
    else if siz ≥ 1024 then .kilo (Int.tdiv siz 1024)
    else .raw siz
  else .empty

/-- The count chosen by one pass of the loop body of `RunBench` before it is
rounded: `n = max(last+1, min(n+n/2, 100*last))`, where `n` is the estimate
`est` and every operation is on `int`. -/
def nextCount (last est : Int) : Int :=
  max (wrap32 (last + 1)) (min (wrap32 (est + Int.tdiv est 2)) (wrap32 (100 * last)))

/-- The estimate of the loop body of `RunBench` from the quotient `q = ns/n`:
`if(ns/n == 0) n = (int)1e9; else n = (int)1e9 / static_cast<int>(ns/n);`
(the division is not evaluated when its divisor is zero, see `trialLoop`). -/
def estimate (q : Int) : Int :=
  if q = 0 then 1000000000 else wrap32 (Int.tdiv 1000000000 (wrap32 q))

/-- The trial loop of `RunBench`:
`while(ns < 1e9 && n < 1e9) { last = n; n = ...; n = round(n); runN(b, n, siz); }`.
The result is the final count and state. -/
def trialLoop (clk : Clock) (b : Benchmark) (siz : Int) : Nat → Int → World → Res (Int × World)
  | 0, _, w => .fuel w
  | fuel + 1, n, w =>
    if w.ns < 1000000000 ∧ n < 1000000000 then
      if n = 0 then .divByZero w
      else
        let q := wrap64 (Int.tdiv w.ns n)
        if q ≠ 0 ∧ wrap32 q = 0 then .divByZero w
        else
          match round (nextCount n (estimate q)) with
          | none => .hang w
          | some n1 => (runN clk b n1 siz w).bind (fun w1 => trialLoop clk b siz fuel n1 w1)
    else .ok (n, w)

/-- The report of `RunBench`: the line printed after the trial loop. -/
def report (b : Benchmark) (siz n : Int) (w : World) : Res World :=
  if n = 0 then .divByZero w
  else
    .ok { w with out := w.out ++
      [{ name := b.name, suf := sizeSuffix b siz, n := n,
         nsPerOp := wrap64 (Int.tdiv w.ns n),
         mb := if w.ns > 0 ∧ w.bytes > 0 then some (w.bytes, w.ns) else none }] }

/-- Source `RunBench`: nothing for a thread count other than 1; otherwise one trial
with `n = 1`, the trial loop, and the report line. -/
def RunBench (clk : Clock) (fuel : Nat) (b : Benchmark) (nthread siz : Int) (w : World) :
    Res World :=
  if nthread ≠ 1 then .ok w
  else
    (runN clk b 1 siz w).bind fun w1 =>
      (trialLoop clk b siz fuel 1 w1).bind fun r => report b siz r.1 r.2

/-! ## Selection and sweep -/

/-- Source `match`: selected when `argc == 1`, or when `RE2::PartialMatch(name, argv[i])`
holds for some `i` with `1 <= i < argc`.  `argv` is the argument vector
(`argc` is its length) and `pm` the partial-match test of the regex library. -/
def matchName (pm : String → String → Bool) (name : String) (argv : List String) : Bool :=
  if argv.length = 1 then true
  else (argv.drop 1).any (fun pat => pm name pat)

/-- The size loop of `main`: `for(k = ...; k <= max(b->hi, 1); k<<=1) RunBench(b, j, k);`
from the current value of `k`. -/
def sizeLoop (clk : Clock) (fuel : Nat) (b : Benchmark) (j : Int) : Nat → Int → World → Res World
  | 0, _, w => .fuel w
  | i + 1, k, w =>
    if k ≤ max b.hi 1 then
      (RunBench clk fuel b j k w).bind (fun w1 => sizeLoop clk fuel b j i (wrap32 (k * 2)) w1)
    else .ok w

/-- The thread loop of `main`: `for(j = ...; j <= b->threadhi; j++) <size loop>`
from the current value of `j`. -/
def threadLoop (clk : Clock) (fuel : Nat) (b : Benchmark) : Nat → Int → World → Res World
  | 0, _, w => .fuel w
  | i + 1, j, w =>
    if j ≤ b.threadhi then
      (sizeLoop clk fuel b j fuel (max b.lo 1) w).bind
        (fun w1 => threadLoop clk fuel b i (wrap32 (j + 1)) w1)
    else .ok w

/-- The loop of `main` over the registry, in registration order. -/
def benchLoop (clk : Clock) (fuel : Nat) (pm : String → String → Bool) (argv : List String) :
    List Benchmark → World → Res World
  | [], w => .ok w
  | b :: rest, w =>
    if matchName pm b.name argv then
      (threadLoop clk fuel b fuel b.threadlo w).bind (fun w1 => benchLoop clk fuel pm argv rest w1)
    else benchLoop clk fuel pm argv rest w

/-- Source `main`: the sweep over the registry; falling off the end of `main` is
exit status 0. -/
def main (clk : Clock) (fuel : Nat) (pm : String → String → Bool) (argv : List String)
    (benchmarks : List Benchmark) (w : World) : Res World :=
  (benchLoop clk fuel pm argv benchmarks w).bind (fun w1 => .exit 0 w1)

/-! ## Descriptions used in the statements -/

/-- The value of `base` after `k` passes of the loop of `round` that started at `b`. -/
def iterBase : Nat → Int → Int
  | 0, b => b
  | k + 1, b => iterBase k (wrap32 (b * 10))

/-- The values `2*10^k`, `5*10^k` and `10*10^k`. -/
def isRoundValue (v : Int) : Prop :=
  ∃ k : Nat, v = 2 * 10 ^ k ∨ v = 5 * 10 ^ k ∨ v = 10 * 10 ^ k

/-- The calls made by the body `runN` invokes: those of `fn` when it is
present, else those of `fnr`; `none` when the descriptor has neither. -/
def bodyCalls (b : Benchmark) (n siz : Int) : Option (List Call) :=
  match b.fn with
  | some f => some (f n)
  | none =>
    match b.fnr with
    | some g => some (g n siz)
    | none => none

/-- The state in which `runN` enters the body: accumulator reset, start
reading stored in `t0`, the trial logged. -/
def trialStart (clk : Clock) (b : Benchmark) (n siz : Int) (w : World) : World :=
  { w with bytes := 0, items := 0, ns := 0, t0 := clk w.tick, tick := w.tick + 1,
           trials := w.trials ++ [(b.name, n, siz)] }

/-- The closing statement of `runN`, `if(t0 != 0) ns += nsec() - t0;`, as a
function of the state the body leaves. -/
def trialEnd (clk : Clock) (w : World) : World :=
  if w.t0 ≠ 0 then addSpan clk w else w

/-- A call that pauses or resumes timing. -/
def Call.isTiming : Call → Bool
  | .stopTiming => true
  | .startTiming => true
  | _ => false

/-- The active timing spans of the rest of a trial, as pairs (reading at span
start, reading at span end).  `cur` is the start reading of the span that is
open (`none` while timing is paused) and `tick` the number of readings taken.
A pause while a span is open closes it at the next reading; a resume while
timing is paused opens a span at the next reading; a pause while paused and a
resume while active do nothing and take no reading; at the end of the trial
an open span is closed at the next reading and nothing is added otherwise. -/
def activeSpans (clk : Clock) : List Call → Nat → Option Int → List (Int × Int)
  | [], tick, some s => [(s, clk tick)]
  | [], _, none => []
  | .stopTiming :: cs, tick, some s => (s, clk tick) :: activeSpans clk cs (tick + 1) none
  | .stopTiming :: cs, tick, none => activeSpans clk cs tick none
  | .startTiming :: cs, tick, none => activeSpans clk cs (tick + 1) (some (clk tick))
  | .startTiming :: cs, tick, some s => activeSpans clk cs tick (some s)
  | .setBytes _ :: cs, tick, cur => activeSpans clk cs tick cur
  | .setItems _ :: cs, tick, cur => activeSpans clk cs tick cur

/-- The active timing spans of a trial that starts when `tick` readings have
been taken: the first span opens at the start reading. -/
def trialSpans (clk : Clock) (calls : List Call) (tick : Nat) : List (Int × Int) :=
  activeSpans clk calls (tick + 1) (some (clk tick))

/-- The sum over the spans of (reading at span end - reading at span start). -/
def spanSum (spans : List (Int × Int)) : Int :=
  (spans.map (fun s => s.2 - s.1)).sum

/-- Every trial of the descriptor returns, and with an elapsed time `ns` for
which `ns/n` is `0`: the body does no measurable work. -/
def idleTrials (clk : Clock) (b : Benchmark) (siz : Int) : Prop :=
  ∀ (n : Int) (w : World), ∃ w1, runN clk b n siz w = .ok w1 ∧ Int.tdiv w1.ns n = 0

/-- The iteration counts of the trials of one calibration when `ns/n` is `0`
on every trial. -/
def idleCounts : List Int := [1, 100, 10000, 1000000, 100000000, 2000000000]

/-- A quotient `ns/n` on which `RunBench` divides by zero: it is not zero, but
its conversion to `int` is. -/
def zeroDivisor (q : Int) : Prop := q ≠ 0 ∧ wrap32 q = 0

/-- The sizes of the calibrations run, in order: the sizes of the logged
trials with iteration count `1` (every calibration starts with such a trial
and runs no other). -/
def calibratedSizes (w : World) : List Int :=
  (w.trials.filter (fun t => t.2.1 = 1)).map (fun t => t.2.2)

/-- The sizes `lo, 2*lo, 4*lo, ...` up to `hi`; `steps` bounds their number. -/
def doublings : Nat → Int → Int → List Int
  | 0, _, _ => []
  | steps + 1, k, hi => if k ≤ hi then k :: doublings steps (2 * k) hi else []

/-- The sizes `lo * 2^i`, `i = 0, 1, 2, ...`, that are at most `hi`, in
increasing order of `i` (for `lo >= 1` and `hi < 2^31` only `i <= 30` can
qualify). -/
def sweepSizes (lo hi : Int) : List Int :=
  ((List.range 31).map (fun i => lo * 2 ^ i)).filter (fun s => s ≤ hi)

instance (q : Int) : Decidable (zeroDivisor q) := by unfold zeroDivisor; infer_instance

/-! ## Concrete descriptors and clocks used in instances -/

/-- A descriptor with the size range `1 .. 2^30`, whose body makes no call. -/
def wideBench : Benchmark :=
  { name := "wide", fn := some (fun _ => []), fnr := none, lo := 1, hi := 1073741824,
    threadlo := 1, threadhi := 1 }

/-- A descriptor with the size range `3 .. 20` and the thread range `0 .. 2`,
whose body makes no call. -/
def smallBench : Benchmark :=
  { name := "small", fn := some (fun _ => []), fnr := none, lo := 3, hi := 20,
    threadlo := 0, threadhi := 2 }

/-- A clock that reads `4294967295` first and the failure value `-1` from
then on. -/
def lateFailClock : Clock := fun i => if i = 0 then 4294967295 else -1

/-- A clock that reads `0` first and `5` from then on. -/
def zeroFirstClock : Clock := fun i => if i = 0 then 0 else 5

/-- A clock whose first reading is `1000` and whose later readings are the
failure value `-1`. -/
def failingClock : Clock := fun i => if i = 0 then 1000 else -1

/-- A descriptor whose body pauses, pauses again, resumes and resumes again. -/
def pausingBench : Benchmark :=
  { name := "pausing",
    fn := some (fun _ => [.stopTiming, .stopTiming, .startTiming, .startTiming]),
    fnr := none, lo := 1, hi := 1, threadlo := 1, threadhi := 1 }

/-- A clock on which every reading is the failure value `-1`. -/
def deadClock : Clock := fun _ => -1

/-- A state in which timing is active (`t0 = 7`). -/
def activeWorld : World := { World.init with t0 := 7 }

/-- A clock whose `i`-th reading is `10 * (i + 1)`. -/
def tenClock : Clock := fun i => 10 * (i + 1)


/-- A descriptor whose body makes no call into the harness. -/
def idleBench : Benchmark :=
  { name := "idle", fn := some (fun _ => []), fnr := none, lo := 1, hi := 1,
    threadlo := 1, threadhi := 1 }

/-- A clock that always reads `1`: no time passes. -/
def stillClock : Clock := fun _ => 1

/-! ## Descriptions used for selection and registration -/

/-- A descriptor registered with the thread range `5 .. 2`. -/
def reversedBench : Benchmark :=
  { name := "reversed", fn := some (fun _ => []), fnr := none, lo := 1, hi := 1,
    threadlo := 5, threadhi := 2 }

/-- The sweeps of the descriptors of a list, one after the other, in the
order of the list: what `main` does with the descriptors it has selected. -/
def sweepEach (clk : Clock) (fuel : Nat) : List Benchmark → World → Res World
  | [], w => .ok w
  | b :: rest, w =>
    (threadLoop clk fuel b fuel b.threadlo w).bind (fun w1 => sweepEach clk fuel rest w1)

/-- A descriptor with the single size `1024` and no size-taking body. -/
def fixedBench : Benchmark :=
  { name := "fixed", fn := some (fun _ => []), fnr := none, lo := 1024, hi := 1024,
    threadlo := 1, threadhi := 1 }

/-- A descriptor with the size range `1 .. 2097152`. -/
def rangeBench : Benchmark :=
  { name := "range", fn := some (fun _ => []), fnr := none, lo := 1, hi := 2097152,
    threadlo := 1, threadhi := 1 }

/-- A state in which an earlier trial has left byte and item counts and an
elapsed time. -/
def usedWorld : World :=
  { World.init with bytes := 4096, ns := 123456789, t0 := 55, items := 17 }

/-- A descriptor whose body sets the byte count and pauses timing. -/
def countingBench : Benchmark :=
  { name := "counting", fn := some (fun n => [.setBytes (8 * n), .stopTiming]), fnr := none,
    lo := 1, hi := 1, threadlo := 1, threadhi := 1 }

/-- The state with which the computation ended normally, when it did. -/
def Res.okState : Res World → Option World
  | .ok w => some w
  | _ => none

/-- The iteration counts of the logged trials, in order. -/
def trialCounts (w : World) : List Int := w.trials.map (fun t => t.2.1)

/-- A clock that never goes back: it reads `1` seven times and `100000001`
from then on.  With a body that makes no call, the trials of one calibration
take `0`, `0`, `0`, `100000000`, `0`, `0` nanoseconds. -/
def burstClock : Clock := fun i => if i < 7 then 1 else 100000001

/-- A descriptor with neither callable form: `fn` and `fnr` are both null. -/
def malformed (b : Benchmark) : Prop := b.fn.isNone = true ∧ b.fnr.isNone = true

instance (b : Benchmark) : Decidable (malformed b) := by unfold malformed; infer_instance

/-- The descriptors for which `main` calls `RunBench` with the thread count 1:
`1` is in the thread range and the size loop makes a first pass. -/
def runsTrial (b : Benchmark) : Prop :=
  b.threadlo ≤ 1 ∧ 1 ≤ b.threadhi ∧ max b.lo 1 ≤ max b.hi 1

instance (b : Benchmark) : Decidable (runsTrial b) := by unfold runsTrial; infer_instance

/-- The ranges for which no loop counter of `main` leaves the `int` range. -/
def sweepInRange (b : Benchmark) : Prop :=
  b.hi < 1073741824 ∧ -2147483648 ≤ b.threadlo ∧ b.threadhi < 2147483647

instance (b : Benchmark) : Decidable (sweepInRange b) := by unfold sweepInRange; infer_instance

/-- No trial of the descriptor ends with a negative elapsed time. -/
def nonnegTrials (clk : Clock) (b : Benchmark) : Prop :=
  ∀ n siz v0 v, runN clk b n siz v0 = .ok v → 0 ≤ v.ns

/-- A selected descriptor with neither callable form that `main` runs. -/
def exitsWith2 (pm : String → String → Bool) (argv : List String) (b : Benchmark) : Prop :=
  matchName pm b.name argv = true ∧ malformed b ∧ runsTrial b

/-- A descriptor with neither callable form and the thread range `2 .. 2`. -/
def ghostBench : Benchmark :=
  { name := "ghost", fn := none, fnr := none, lo := 1, hi := 1, threadlo := 2, threadhi := 2 }

/-- A descriptor with neither callable form and the thread range `1 .. 1`. -/
def emptyBench : Benchmark :=
  { name := "empty", fn := none, fnr := none, lo := 1, hi := 1, threadlo := 1, threadhi := 1 }

/-- A registry of three descriptors: one with a body, one with neither
callable form (thread range `1 .. 1`), and the first again. -/
def mixedRegistry : List Benchmark := [idleBench, emptyBench, idleBench]

/-! ## The trials of one calibration -/

/-- The trials run by the loop of `RunBench` from the count `n` and the state
`w`, in order, each as its iteration count and the state in which `runN`
returned.  It follows `trialLoop` statement by statement and stops where the
loop stops or fails. -/
def loopTrials (clk : Clock) (b : Benchmark) (siz : Int) : Nat → Int → World → List (Int × World)
  | 0, _, _ => []
  | fuel + 1, n, w =>
    if w.ns < 1000000000 ∧ n < 1000000000 then
      if n = 0 then []
      else
        let q := wrap64 (Int.tdiv w.ns n)
        if q ≠ 0 ∧ wrap32 q = 0 then []
        else
          match round (nextCount n (estimate q)) with
          | none => []
          | some n1 =>
            match runN clk b n1 siz w with
            | .ok w1 => (n1, w1) :: loopTrials clk b siz fuel n1 w1
            | _ => []
    else []

/-- The trials run by `RunBench` with the thread count 1: the first one, with
`n = 1`, then those of its loop. -/
def benchTrials (clk : Clock) (fuel : Nat) (b : Benchmark) (siz : Int) (w : World) :
    List (Int × World) :=
  match runN clk b 1 siz w with
  | .ok w1 => (1, w1) :: loopTrials clk b siz fuel 1 w1
  | _ => []

/-- Every trial that `RunBench` runs from the state `w` returns with an elapsed
time `ns` for which `ns/n` is `0`: the body does no measurable work. -/
def idleRun (clk : Clock) (fuel : Nat) (b : Benchmark) (siz : Int) (w : World) : Prop :=
  ∀ t ∈ benchTrials clk fuel b siz w, Int.tdiv t.2.ns t.1 = 0

instance (clk : Clock) (fuel : Nat) (b : Benchmark) (siz : Int) (w : World) :
    Decidable (idleRun clk fuel b siz w) := by unfold idleRun; infer_instance

/-- A clock that advances between trials only: readings `1, 1, 2, 2, 3, 3, ...`. -/
def pacedClock : Clock := fun i => ((i / 2 : Nat) : Int) + 1

/-! # Properties -/

/-! ## Machine integers -/

theorem wrap32_id (x : Int) (h1 : -2147483648 ≤ x) (h2 : x ≤ 2147483647) : wrap32 x = x := by
  unfold wrap32; omega

theorem wrap64_id (x : Int) (h1 : -9223372036854775808 ≤ x) (h2 : x ≤ 9223372036854775807) :
    wrap64 x = x := by
  unfold wrap64; omega

theorem wrap32_range (x : Int) : -2147483648 ≤ wrap32 x ∧ wrap32 x ≤ 2147483647 := by
  unfold wrap32; omega

theorem wrap64_range (x : Int) :
    -9223372036854775808 ≤ wrap64 x ∧ wrap64 x ≤ 9223372036854775807 := by
  unfold wrap64; omega

/-! ## The loop of `round` -/

theorem roundLoop_pos (f : Nat) (b n : Int) (hf : 0 < f) (h : wrap32 (b * 10) < n) :
    roundLoop f b n = roundLoop (f - 1) (wrap32 (b * 10)) n := by
  cases f with
  | zero => omega
  | succ f => simp [roundLoop, h]

theorem roundLoop_neg (f : Nat) (b n : Int) (hf : 0 < f) (h : ¬ wrap32 (b * 10) < n) :
    roundLoop f b n = some b := by
  cases f with
  | zero => omega
  | succ f => simp [roundLoop, h]

/-- More fuel does not change a result the loop has reached. -/
theorem roundLoop_mono (m : Nat) : ∀ (f : Nat) (b n r : Int),
    roundLoop f b n = some r → roundLoop (f + m) b n = some r := by
  intro f
  induction f with
  | zero => intro b n r h; simp [roundLoop] at h
  | succ f ih =>
    intro b n r h
    rw [show f + 1 + m = (f + m) + 1 by omega]
    simp only [roundLoop] at h ⊢
    split_ifs at h ⊢ with hc
    · exact ih _ _ _ h
    · exact h

/-- A loop that used up `f` units of fuel has made `f` passes. -/
theorem roundLoop_none (m : Nat) : ∀ (f : Nat) (b n : Int),
    roundLoop f b n = none → roundLoop (f + m) b n = roundLoop m (iterBase f b) n := by
  intro f
  induction f with
  | zero => intro b n _; simp [iterBase]
  | succ f ih =>
    intro b n h
    rw [show f + 1 + m = (f + m) + 1 by omega]
    simp only [roundLoop] at h ⊢
    split_ifs at h ⊢ with hc
    exact ih _ _ h

/-- With `base = 0` and `n` positive the loop never exits. -/
theorem roundLoop_zero (n : Int) (hn : 0 < n) : ∀ f : Nat, roundLoop f 0 n = none := by
  intro f
  induction f with
  | zero => rfl
  | succ f ih =>
    have h0 : wrap32 (0 * 10) = 0 := by decide
    simp only [roundLoop, h0, hn, if_true]
    exact ih

theorem iterBase_32 : iterBase 32 1 = 0 := by
  norm_num [iterBase, wrap32]

/-- The fuel `roundFuel` decides the loop of `round`: any larger amount of fuel
gives the same outcome. -/
theorem roundLoop_fuel (n : Int) (fuel : Nat) (h : roundFuel ≤ fuel) :
    roundLoop fuel 1 n = roundLoop roundFuel 1 n := by
  unfold roundFuel at h ⊢
  cases h33 : roundLoop 33 1 n with
  | some r =>
    have := roundLoop_mono (fuel - 33) 33 1 n r h33
    rwa [show 33 + (fuel - 33) = fuel by omega] at this
  | none =>
    have h32 : roundLoop 32 1 n = none := by
      cases h' : roundLoop 32 1 n with
      | none => rfl
      | some r =>
        have := roundLoop_mono 1 32 1 n r h'
        rw [show 32 + 1 = 33 by rfl, h33] at this
        cases this
    have e1 := roundLoop_none 1 32 1 n h32
    rw [show 32 + 1 = 33 by rfl, h33, iterBase_32] at e1
    have hn : 0 < n := by
      by_contra hneg
      have h0 : wrap32 (0 * 10) = 0 := by decide
      have : roundLoop 1 0 n = some 0 := roundLoop_neg 1 0 n (by decide) (by rw [h0]; exact hneg)
      rw [this] at e1
      cases e1
    have e2 := roundLoop_none (fuel - 32) 32 1 n h32
    rw [show 32 + (fuel - 32) = fuel by omega, iterBase_32] at e2
    rw [e2]
    exact roundLoop_zero n hn _

/-- When `round` has no result, its loop exits for no amount of fuel. -/
theorem roundLoop_never (n : Int) (h : round n = none) :
    ∀ fuel : Nat, roundLoop fuel 1 n = none := by
  have h33 : roundLoop roundFuel 1 n = none := by
    unfold round at h
    cases hc : roundLoop roundFuel 1 n with
    | none => rfl
    | some b =>
      rw [hc] at h
      simp only at h
      split_ifs at h
  intro fuel
  by_cases hf : roundFuel ≤ fuel
  · rw [roundLoop_fuel n fuel hf, h33]
  · cases hc : roundLoop fuel 1 n with
    | none => rfl
    | some r =>
      have := roundLoop_mono (roundFuel - fuel) fuel 1 n r hc
      rw [show fuel + (roundFuel - fuel) = roundFuel by omega, h33] at this
      cases this

/-! ## `round` where no operation overflows -/

/-- For `1 <= n <= 10^9` the loop of `round` stops at the power of ten
`10^k` with `10^k < n <= 10^(k+1)` (`k = 0` when `n <= 10`), and the result is
`2*10^k`, `5*10^k` or `10*10^k` according to the two comparisons. -/
theorem round_decade (n : Int) (h1 : 1 ≤ n) (h2 : n ≤ 1000000000) :
    ∃ k : Nat, k ≤ 8 ∧ (k = 0 ∨ 10 ^ k < n) ∧ n ≤ 10 ^ (k + 1) ∧
      round n = some (if n < 2 * 10 ^ k then 2 * 10 ^ k
                      else if n < 5 * 10 ^ k then 5 * 10 ^ k else 10 * 10 ^ k) := by
  have hd : n ≤ 10 ∨ (10 < n ∧ n ≤ 100) ∨ (100 < n ∧ n ≤ 1000) ∨ (1000 < n ∧ n ≤ 10000) ∨
      (10000 < n ∧ n ≤ 100000) ∨ (100000 < n ∧ n ≤ 1000000) ∨
      (1000000 < n ∧ n ≤ 10000000) ∨ (10000000 < n ∧ n ≤ 100000000) ∨
      (100000000 < n ∧ n ≤ 1000000000) := by omega
  rcases hd with h | h | h | h | h | h | h | h | h
  · refine ⟨0, by norm_num, Or.inl rfl, by norm_num; omega, ?_⟩
    have hb : roundLoop roundFuel 1 n = some 1 := by
      unfold roundFuel
      rw [roundLoop_neg _ _ _ (by norm_num) (by simp only [wrap32]; omega)]
    simp only [round, hb]
    norm_num [wrap32]
    split_ifs <;> rfl
  · refine ⟨1, by norm_num, Or.inr (by norm_num; omega), by norm_num; omega, ?_⟩
    have hb : roundLoop roundFuel 1 n = some 10 := by
      unfold roundFuel
      repeat (first
        | rw [roundLoop_neg _ _ _ (by norm_num) (by simp only [wrap32]; omega)]
        | (rw [roundLoop_pos _ _ _ (by norm_num) (by simp only [wrap32]; omega)]
           norm_num [wrap32]))
    simp only [round, hb]
    norm_num [wrap32]
    split_ifs <;> rfl
  · refine ⟨2, by norm_num, Or.inr (by norm_num; omega), by norm_num; omega, ?_⟩
    have hb : roundLoop roundFuel 1 n = some 100 := by
      unfold roundFuel
      repeat (first
        | rw [roundLoop_neg _ _ _ (by norm_num) (by simp only [wrap32]; omega)]
        | (rw [roundLoop_pos _ _ _ (by norm_num) (by simp only [wrap32]; omega)]
           norm_num [wrap32]))
    simp only [round, hb]
    norm_num [wrap32]
    split_ifs <;> rfl
  · refine ⟨3, by norm_num, Or.inr (by norm_num; omega), by norm_num; omega, ?_⟩
    have hb : roundLoop roundFuel 1 n = some 1000 := by
      unfold roundFuel
      repeat (first
        | rw [roundLoop_neg _ _ _ (by norm_num) (by simp only [wrap32]; omega)]
        | (rw [roundLoop_pos _ _ _ (by norm_num) (by simp only [wrap32]; omega)]
           norm_num [wrap32]))
    simp only [round, hb]
    norm_num [wrap32]
    split_ifs <;> rfl
  · refine ⟨4, by norm_num, Or.inr (by norm_num; omega), by norm_num; omega, ?_⟩
    have hb : roundLoop roundFuel 1 n = some 10000 := by
      unfold roundFuel
      repeat (first
        | rw [roundLoop_neg _ _ _ (by norm_num) (by simp only [wrap32]; omega)]
        | (rw [roundLoop_pos _ _ _ (by norm_num) (by simp only [wrap32]; omega)]
           norm_num [wrap32]))
    simp only [round, hb]
    norm_num [wrap32]
    split_ifs <;> rfl
  · refine ⟨5, by norm_num, Or.inr (by norm_num; omega), by norm_num; omega, ?_⟩
    have hb : roundLoop roundFuel 1 n = some 100000 := by
      unfold roundFuel
      repeat (first
        | rw [roundLoop_neg _ _ _ (by norm_num) (by simp only [wrap32]; omega)]
        | (rw [roundLoop_pos _ _ _ (by norm_num) (by simp only [wrap32]; omega)]
           norm_num [wrap32]))
    simp only [round, hb]
    norm_num [wrap32]
    split_ifs <;> rfl
  · refine ⟨6, by norm_num, Or.inr (by norm_num; omega), by norm_num; omega, ?_⟩
    have hb : roundLoop roundFuel 1 n = some 1000000 := by
      unfold roundFuel
      repeat (first
        | rw [roundLoop_neg _ _ _ (by norm_num) (by simp only [wrap32]; omega)]
        | (rw [roundLoop_pos _ _ _ (by norm_num) (by simp only [wrap32]; omega)]
           norm_num [wrap32]))
    simp only [round, hb]
    norm_num [wrap32]
    split_ifs <;> rfl
  · refine ⟨7, by norm_num, Or.inr (by norm_num; omega), by norm_num; omega, ?_⟩
    have hb : roundLoop roundFuel 1 n = some 10000000 := by
      unfold roundFuel
      repeat (first
        | rw [roundLoop_neg _ _ _ (by norm_num) (by simp only [wrap32]; omega)]
        | (rw [roundLoop_pos _ _ _ (by norm_num) (by simp only [wrap32]; omega)]
           norm_num [wrap32]))
    simp only [round, hb]
    norm_num [wrap32]
    split_ifs <;> rfl
  · refine ⟨8, by norm_num, Or.inr (by norm_num; omega), by norm_num; omega, ?_⟩
    have hb : roundLoop roundFuel 1 n = some 100000000 := by
      unfold roundFuel
      repeat (first
        | rw [roundLoop_neg _ _ _ (by norm_num) (by simp only [wrap32]; omega)]
        | (rw [roundLoop_pos _ _ _ (by norm_num) (by simp only [wrap32]; omega)]
           norm_num [wrap32]))
    simp only [round, hb]
    norm_num [wrap32]
    split_ifs <;> rfl

/-- Between `10^9` and `1410065408` (the 32-bit value of `10^10`) the loop of
`round` stops at `10^9` and the result is `2*10^9`. -/
theorem round_above (n : Int) (h1 : 1000000000 < n) (h2 : n ≤ 1410065408) :
    round n = some 2000000000 := by
  have hb : roundLoop roundFuel 1 n = some 1000000000 := by
    unfold roundFuel
    repeat (first
      | rw [roundLoop_neg _ _ _ (by norm_num) (by simp only [wrap32]; omega)]
      | (rw [roundLoop_pos _ _ _ (by norm_num) (by simp only [wrap32]; omega)]
         norm_num [wrap32]))
  simp only [round, hb]
  norm_num [wrap32]
  omega

/-- From `1410065409` to `1874919424` the multiplications of the loop of
`round` wrap around seven times and the result is `1874919424`. -/
theorem round_wrapped (n : Int) (h1 : 1410065408 < n) (h2 : n ≤ 1874919424) :
    round n = some 1874919424 := by
  have hb : roundLoop roundFuel 1 n = some (-1530494976) := by
    unfold roundFuel
    repeat (first
      | rw [roundLoop_neg _ _ _ (by norm_num) (by simp only [wrap32]; omega)]
      | (rw [roundLoop_pos _ _ _ (by norm_num) (by simp only [wrap32]; omega)]
         norm_num [wrap32]))
  simp only [round, hb]
  norm_num [wrap32]
  split_ifs <;> first | rfl | omega

/-- On `1 <= n <= 1874919424` the function `round` has a result, which is at
least `n` and at most `2*10^9`. -/
theorem round_total (n : Int) (h1 : 1 ≤ n) (h2 : n ≤ 1874919424) :
    ∃ v, round n = some v ∧ n ≤ v ∧ v ≤ 2000000000 := by
  by_cases ha : n ≤ 1000000000
  · obtain ⟨k, hk, hlow, hup, hr⟩ := round_decade n h1 ha
    refine ⟨_, hr, ?_, ?_⟩
    · split_ifs <;> omega
    · have : (10 : Int) ^ k ≤ 10 ^ 8 := pow_le_pow_right₀ (by norm_num) hk
      split_ifs <;> omega
  · by_cases hb : n ≤ 1410065408
    · exact ⟨_, round_above n (by omega) hb, by omega, by omega⟩
    · exact ⟨_, round_wrapped n (by omega) h2, by omega, by omega⟩

theorem not_isRoundValue_1874919424 : ¬ isRoundValue 1874919424 := by
  rintro ⟨k, hk⟩
  by_cases h : k < 10
  · interval_cases k <;> norm_num at hk
  · have h10 : (10 : Int) ^ 10 ≤ 10 ^ k := pow_le_pow_right₀ (by norm_num) (by omega)
    norm_num at h10
    omega

/-! ## C2: the rounding law -/

/-- Where the rounding law holds: for every `n` with `1 <= n <= 1410065408` (in
particular for `n <= 10^9`, where nothing overflows) `round(n)` is `2*10^k`,
`5*10^k` or `10*10^k` for some `k`; and `round(15) = 20`, `round(34) = 50`,
`round(83) = 100`, `round(150) = 200`. -/
theorem round_law (n : Int) (h1 : 1 ≤ n) (h2 : n ≤ 1410065408) :
    (∃ v, round n = some v ∧ isRoundValue v) ∧
      round 15 = some 20 ∧ round 34 = some 50 ∧ round 83 = some 100 ∧ round 150 = some 200 := by
  refine ⟨?_, by decide, by decide, by decide, by decide⟩
  by_cases ha : n ≤ 1000000000
  · obtain ⟨k, _, _, _, hr⟩ := round_decade n h1 ha
    refine ⟨_, hr, k, ?_⟩
    split_ifs
    · exact Or.inl rfl
    · exact Or.inr (Or.inl rfl)
    · exact Or.inr (Or.inr rfl)
  · exact ⟨_, round_above n (by omega) h2, 9, Or.inl (by norm_num)⟩

theorem round_law_witness :
    (1 : Int) ≤ 1410065408 ∧ (1410065408 : Int) ≤ 1410065408 ∧
      ((∃ v, round 1410065408 = some v ∧ isRoundValue v) ∧
        round 15 = some 20 ∧ round 34 = some 50 ∧ round 83 = some 100 ∧
        round 150 = some 200) :=
  ⟨by decide, by decide, round_law 1410065408 (by decide) (by decide)⟩

/-- C2 fails at `n = 1500000000`, an argument `RunBench` passes (it is the
count chosen after a trial with `last = 20000000` and `ns/n = 0`): the loop of
`round` multiplies `base = 10^9` by ten, which leaves the `int` range (the
wrapped product is `1410065408`, below `n`, so the loop runs on), and `round`
returns `1874919424`, which is none of `2*10^k`, `5*10^k`, `10*10^k`; the value
of that form that the law asks for is `2000000000`.  The four examples of the
claim hold. -/
theorem round_law_fails :
    round 1500000000 = some 1874919424 ∧ ¬ isRoundValue 1874919424 ∧
      (¬ ∃ v, round 1500000000 = some v ∧ isRoundValue v) ∧
      nextCount 20000000 (estimate 0) = 1500000000 ∧
      ¬ isInt32 (1000000000 * 10) ∧ wrap32 (1000000000 * 10) = 1410065408 ∧
      isRoundValue 2000000000 ∧
      round 15 = some 20 ∧ round 34 = some 50 ∧ round 83 = some 100 ∧
      round 150 = some 200 := by
  have hr : round 1500000000 = some 1874919424 :=
    round_wrapped 1500000000 (by norm_num) (by norm_num)
  refine ⟨hr, not_isRoundValue_1874919424, ?_, by decide, by decide, by decide,
    ⟨9, Or.inl (by norm_num)⟩, by decide, by decide, by decide, by decide⟩
  rintro ⟨v, hv, hiv⟩
  rw [hr] at hv
  cases hv
  exact not_isRoundValue_1874919424 hiv

/-! ## C3: the examples of rounding -/

/-- C3, as stated, fails: `round(23)` is `50`, not `20`. -/
theorem round_23_not_20 : round 23 = some 50 ∧ round 23 ≠ some 20 := by
  constructor <;> decide

/-- C3, amended: `round` maps 23 to 50, 47 to 50 and 83 to 100; each result is
at least the argument and is `2`, `5` or `10` times a power of ten. -/
theorem round_examples :
    round 23 = some 50 ∧ round 47 = some 50 ∧ round 83 = some 100 ∧
      isRoundValue 50 ∧ isRoundValue 100 := by
  refine ⟨by decide, by decide, by decide, ⟨1, Or.inr (Or.inl (by norm_num))⟩,
    ⟨1, Or.inr (Or.inr (by norm_num))⟩⟩

/-! ## C5: registration -/

theorem clampRange_fields (b : Benchmark) :
    (clampRange b).lo = max b.lo 1 ∧ (clampRange b).hi = max b.hi (max b.lo 1) ∧
      (clampRange b).name = b.name ∧ (clampRange b).fn = b.fn ∧ (clampRange b).fnr = b.fnr ∧
      (clampRange b).threadlo = b.threadlo ∧ (clampRange b).threadhi = b.threadhi := by
  unfold clampRange
  by_cases h1 : b.lo < 1
  · by_cases h2 : b.hi < 1
    · simp only [h1, h2, if_true]
      refine ⟨?_, ?_, trivial, trivial, trivial, trivial, trivial⟩ <;> omega
    · simp only [h1, h2, if_true, if_false]
      refine ⟨?_, ?_, trivial, trivial, trivial, trivial, trivial⟩ <;> omega
  · by_cases h2 : b.hi < b.lo
    · simp only [h1, h2, if_true, if_false]
      refine ⟨?_, ?_, trivial, trivial, trivial, trivial, trivial⟩ <;> omega
    · simp only [h1, h2, if_false]
      refine ⟨?_, ?_, trivial, trivial, trivial, trivial, trivial⟩ <;> omega

/-- C5: for every descriptor and every `lo`, `hi`, registering in a registry
that has room appends exactly one entry, leaves the earlier entries unchanged,
and the stored range has `lo >= 1` and `hi >= lo`; the other fields are the
descriptor's; with `lo = 0`, `hi = -5` the stored range is `1`, `1`. -/
theorem register_clamps (benchmarks : List Benchmark) (b : Benchmark) (lo hi : Int)
    (hroom : benchmarks.length < maxBenchmarks) :
    ∃ reg s, Register benchmarks { b with lo := lo, hi := hi } = some reg ∧
      reg = benchmarks ++ [s] ∧ reg.length = benchmarks.length + 1 ∧
      (∀ i, i < benchmarks.length → reg[i]? = benchmarks[i]?) ∧
      reg[benchmarks.length]? = some s ∧
      1 ≤ s.lo ∧ s.lo ≤ s.hi ∧ s.lo = max lo 1 ∧ s.hi = max hi (max lo 1) ∧
      s.name = b.name ∧ s.fn = b.fn ∧ s.fnr = b.fnr ∧
      s.threadlo = b.threadlo ∧ s.threadhi = b.threadhi ∧
      (lo = 0 → hi = -5 → s.lo = 1 ∧ s.hi = 1) := by
  obtain ⟨e1, e2, e3, e4, e5, e6, e7⟩ := clampRange_fields { b with lo := lo, hi := hi }
  simp only at e1 e2 e3 e4 e5 e6 e7
  refine ⟨_, clampRange { b with lo := lo, hi := hi }, by simp [Register, hroom], rfl, by simp,
    ?_, by simp, ?_, ?_, e1, e2, e3, e4, e5, e6, e7, ?_⟩
  · intro i hi
    simp [List.getElem?_append_left hi]
  · omega
  · omega
  · intro h0 h5
    omega

/-- An instance of `register_clamps`: the range `0`, `-5` registered first. -/
theorem register_clamps_witness :
    ∃ reg s, Register [] { idleBench with lo := 0, hi := -5 } = some reg ∧ reg = [s] ∧
      s.lo = 1 ∧ s.hi = 1 := by
  obtain ⟨reg, s, h1, h2, _, _, _, _, _, _, _, _, _, _, _, _, h3⟩ :=
    register_clamps [] idleBench 0 (-5) (by decide)
  exact ⟨reg, s, h1, by simpa using h2, h3 rfl rfl⟩

/-! ## The timing accumulator -/

theorem wrap64_add_left (a b : Int) : wrap64 (wrap64 a + b) = wrap64 (a + b) := by
  unfold wrap64; omega

theorem wrap64_add_right (a b : Int) : wrap64 (a + wrap64 b) = wrap64 (a + b) := by
  unfold wrap64; omega

theorem wrap64_wrap64 (a : Int) : wrap64 (wrap64 a) = wrap64 a := by
  unfold wrap64; omega

/-- The result of `runN` for a descriptor with a body. -/
theorem runN_some (clk : Clock) (b : Benchmark) (n siz : Int) (w : World) (cs : List Call)
    (hb : bodyCalls b n siz = some cs) :
    runN clk b n siz w = .ok (trialEnd clk (runBody clk cs (trialStart clk b n siz w))) := by
  unfold runN bodyCalls nsec trialEnd trialStart at *
  cases hf : b.fn with
  | some f =>
    rw [hf] at hb
    cases hb
    simp only
    split_ifs <;> rfl
  | none =>
    rw [hf] at hb
    cases hg : b.fnr with
    | some g =>
      rw [hg] at hb
      cases hb
      simp only
      split_ifs <;> rfl
    | none => rw [hg] at hb; cases hb

/-- The result of `runN` for a descriptor without a body: the diagnostic and `exit(2)`. -/
theorem runN_none (clk : Clock) (b : Benchmark) (n siz : Int) (w : World)
    (hb : bodyCalls b n siz = none) :
    runN clk b n siz w =
      .exit 2 { trialStart clk b n siz w with err := w.err ++ [b.name ++ ": missing function\n"] } := by
  unfold runN bodyCalls nsec trialStart at *
  cases hf : b.fn with
  | some f => rw [hf] at hb; cases hb
  | none =>
    rw [hf] at hb
    cases hg : b.fnr with
    | some g => rw [hg] at hb; cases hb
    | none => rfl

theorem addSpan_eq (clk : Clock) (w : World) :
    addSpan clk w =
      { w with ns := wrap64 (w.ns + wrap64 (clk w.tick - w.t0)), tick := w.tick + 1 } := rfl

theorem stop_active (clk : Clock) (w : World) (h : w.t0 ≠ 0) :
    StopBenchmarkTiming clk w =
      { w with ns := wrap64 (w.ns + wrap64 (clk w.tick - w.t0)), tick := w.tick + 1, t0 := 0 } := by
  simp [StopBenchmarkTiming, h, addSpan_eq]

theorem stop_paused (clk : Clock) (w : World) (h : w.t0 = 0) : StopBenchmarkTiming clk w = w := by
  cases w
  simp_all [StopBenchmarkTiming]

theorem start_paused (clk : Clock) (w : World) (h : w.t0 = 0) :
    StartBenchmarkTiming clk w = { w with t0 := clk w.tick, tick := w.tick + 1 } := by
  simp [StartBenchmarkTiming, h, nsec]

theorem start_active (clk : Clock) (w : World) (h : w.t0 ≠ 0) : StartBenchmarkTiming clk w = w := by
  simp [StartBenchmarkTiming, h]

theorem spanSum_cons (s e : Int) (rest : List (Int × Int)) :
    spanSum ((s, e) :: rest) = (e - s) + spanSum rest := by
  simp [spanSum]

theorem spanSum_nil : spanSum [] = 0 := rfl

/-- Running a body: the first call, then the rest. -/
theorem runBody_cons (clk : Clock) (c : Call) (cs : List Call) (w : World) :
    runBody clk (c :: cs) w = runBody clk cs (doCall clk w c) := by
  simp [runBody]

/-- The body and the closing statement of `runN`, from a state in which `cur`
describes `t0` (`none`: `t0 = 0`; `some s`: `t0 = s`, nonzero): the elapsed
time grows by the sum of the active spans, in 64-bit arithmetic. -/
theorem spans_refine (clk : Clock) (hnz : ∀ i, clk i ≠ 0) :
    ∀ (cs : List Call) (w : World) (cur : Option Int),
      isInt64 w.ns → (cur = none → w.t0 = 0) → (∀ s, cur = some s → w.t0 = s ∧ s ≠ 0) →
      (trialEnd clk (runBody clk cs w)).ns
        = wrap64 (w.ns + spanSum (activeSpans clk cs w.tick cur)) := by
  intro cs
  unfold trialEnd
  induction cs with
  | nil =>
    intro w cur hr h0 h1
    cases cur with
    | none =>
      have ht := h0 rfl
      simp only [runBody, List.foldl_nil, ht, ne_eq, not_true_eq_false, if_false, activeSpans,
        spanSum_nil, add_zero]
      exact (wrap64_id _ hr.1 hr.2).symm
    | some s =>
      obtain ⟨ht, hs⟩ := h1 s rfl
      subst ht
      simp only [runBody, List.foldl_nil, hs, ne_eq, not_false_eq_true, if_true, activeSpans,
        spanSum_cons, spanSum_nil, add_zero, addSpan_eq]
      exact wrap64_add_right _ _
  | cons c cs ih =>
    intro w cur hr h0 h1
    rw [runBody_cons]
    cases c with
    | setBytes x =>
      have := ih (doCall clk w (.setBytes x)) cur hr h0 h1
      simpa [activeSpans, doCall, SetBenchmarkBytesProcessed] using this
    | setItems x =>
      have := ih (doCall clk w (.setItems x)) cur hr h0 h1
      simpa [activeSpans, doCall, SetBenchmarkItemsProcessed] using this
    | stopTiming =>
      cases cur with
      | none =>
        have e : doCall clk w .stopTiming = w := stop_paused clk w (h0 rfl)
        rw [e]
        simpa [activeSpans] using ih w none hr h0 h1
      | some s =>
        obtain ⟨ht, hs⟩ := h1 s rfl
        subst ht
        rw [show doCall clk w .stopTiming = _ from stop_active clk w hs]
        have := ih { w with ns := wrap64 (w.ns + wrap64 (clk w.tick - w.t0)), tick := w.tick + 1,
                            t0 := 0 } none (wrap64_range _) (fun _ => rfl) (fun s hs => by cases hs)
        rw [this]
        simp only [activeSpans, spanSum_cons]
        unfold wrap64
        omega
    | startTiming =>
      cases cur with
      | none =>
        rw [show doCall clk w .startTiming = _ from start_paused clk w (h0 rfl)]
        have := ih { w with t0 := clk w.tick, tick := w.tick + 1 } (some (clk w.tick)) hr
          (fun h => by cases h) (fun s hs => by cases hs; exact ⟨rfl, hnz _⟩)
        rw [this]
        simp only [activeSpans]
      | some s =>
        obtain ⟨ht, hs⟩ := h1 s rfl
        subst ht
        have e : doCall clk w .startTiming = w := start_active clk w hs
        rw [e]
        simpa [activeSpans] using ih w (some w.t0) hr h0 h1

/-- A body that makes no timing call leaves `ns`, `t0` and the number of
readings as they were. -/
theorem runBody_untimed (clk : Clock) :
    ∀ (cs : List Call) (w : World), (∀ c ∈ cs, Call.isTiming c = false) →
      (runBody clk cs w).ns = w.ns ∧ (runBody clk cs w).t0 = w.t0 ∧
        (runBody clk cs w).tick = w.tick := by
  intro cs
  induction cs with
  | nil => intro w _; exact ⟨rfl, rfl, rfl⟩
  | cons c cs ih =>
    intro w h
    rw [runBody_cons]
    have hc := h c (List.mem_cons_self _ _)
    have hrest := ih (doCall clk w c) (fun c' hc' => h c' (List.mem_cons_of_mem _ hc'))
    cases c with
    | setBytes x => simpa [doCall, SetBenchmarkBytesProcessed] using hrest
    | setItems x => simpa [doCall, SetBenchmarkItemsProcessed] using hrest
    | stopTiming => simp [Call.isTiming] at hc
    | startTiming => simp [Call.isTiming] at hc

/-- The elapsed time after `runN` on a clock without zero readings: the sum of
the active spans of the trial, in 64-bit arithmetic. -/
theorem runN_spans (clk : Clock) (hnz : ∀ i, clk i ≠ 0) (b : Benchmark) (n siz : Int)
    (w : World) (cs : List Call) (hb : bodyCalls b n siz = some cs) :
    ∃ w1, runN clk b n siz w = .ok w1 ∧
      w1.ns = wrap64 (spanSum (trialSpans clk cs w.tick)) := by
  rw [runN_some clk b n siz w cs hb]
  have h := spans_refine clk hnz cs (trialStart clk b n siz w) (some (clk w.tick))
    (by simp only [isInt64, trialStart]; omega) (fun h => by cases h)
    (fun s hs => by cases hs; exact ⟨rfl, hnz _⟩)
  simp only [trialStart, zero_add] at h
  exact ⟨_, rfl, h⟩

/-- The elapsed time of a trial whose body makes no timing call. -/
theorem runN_untimed (clk : Clock) (b : Benchmark) (n siz : Int) (w : World)
    (cs : List Call) (hb : bodyCalls b n siz = some cs)
    (hq : ∀ c ∈ cs, Call.isTiming c = false) :
    ∃ w1, runN clk b n siz w = .ok w1 ∧
      (clk w.tick ≠ 0 →
        w1.ns = wrap64 (clk (w.tick + 1) - clk w.tick) ∧ w1.tick = w.tick + 2 ∧
        (isInt64 (clk (w.tick + 1) - clk w.tick) → w1.ns = clk (w.tick + 1) - clk w.tick)) ∧
      (clk w.tick = 0 → w1.ns = 0 ∧ w1.tick = w.tick + 1) := by
  rw [runN_some clk b n siz w cs hb]
  obtain ⟨e1, e2, e3⟩ := runBody_untimed clk cs (trialStart clk b n siz w) hq
  have f1 : (trialStart clk b n siz w).ns = 0 := rfl
  have f2 : (trialStart clk b n siz w).t0 = clk w.tick := rfl
  have f3 : (trialStart clk b n siz w).tick = w.tick + 1 := rfl
  rw [f1] at e1
  rw [f2] at e2
  rw [f3] at e3
  generalize runBody clk cs (trialStart clk b n siz w) = v at e1 e2 e3
  refine ⟨_, rfl, fun h0 => ?_, fun h0 => ?_⟩
  · have hv : v.t0 ≠ 0 := by rw [e2]; exact h0
    have hE : trialEnd clk v = addSpan clk v := by simp [trialEnd, hv]
    rw [hE, addSpan_eq]
    simp only [e1, e2, e3, zero_add, wrap64_wrap64, true_and]
    exact fun hr => wrap64_id _ hr.1 hr.2
  · have hv : v.t0 = 0 := by rw [e2]; exact h0
    have hE : trialEnd clk v = v := by simp [trialEnd, hv]
    rw [hE]
    exact ⟨e1, e3⟩

/-! ## C7: the un-paused trial -/

/-- C7, as stated, fails: on a clock that reads `0` and then `5`, a trial whose
body makes no call ends with `ns = 0`, not `5 - 0`; only one reading is taken. -/
theorem unpaused_zero_start :
    ∃ w1, runN zeroFirstClock idleBench 1 1 World.init = .ok w1 ∧ w1.ns = 0 ∧ w1.tick = 1 ∧
      w1.ns ≠ zeroFirstClock 1 - zeroFirstClock 0 :=
  ⟨_, rfl, rfl, rfl, by decide⟩

/-- C7, amended: for a descriptor with a body that makes no timing call, with
`start` the reading `runN` takes before the body and `end` the next reading:
if `start` is nonzero, `runN` takes `end` after the body and `ns` is
`end - start` in 64-bit arithmetic, which is `end - start` itself when that
difference is an `int64` value; if `start` is `0`, no further reading is taken
and `ns` is `0`. -/
theorem unpaused_trial (clk : Clock) (b : Benchmark) (n siz : Int) (w : World)
    (cs : List Call) (hb : bodyCalls b n siz = some cs)
    (hq : ∀ c ∈ cs, Call.isTiming c = false) :
    ∃ w1, runN clk b n siz w = .ok w1 ∧
      (clk w.tick ≠ 0 →
        w1.ns = wrap64 (clk (w.tick + 1) - clk w.tick) ∧ w1.tick = w.tick + 2 ∧
        (isInt64 (clk (w.tick + 1) - clk w.tick) → w1.ns = clk (w.tick + 1) - clk w.tick)) ∧
      (clk w.tick = 0 → w1.ns = 0 ∧ w1.tick = w.tick + 1) :=
  runN_untimed clk b n siz w cs hb hq

/-- An instance of `unpaused_trial`: readings `10` and `20`, elapsed time `10`. -/
theorem unpaused_trial_witness :
    ∃ w1, runN tenClock idleBench 1 1 World.init = .ok w1 ∧ w1.ns = 10 := by
  obtain ⟨w1, h1, h2, _⟩ := unpaused_trial tenClock idleBench 1 1 World.init []
    rfl (by intro c hc; cases hc)
  exact ⟨w1, h1, (h2 (by decide)).2.2 (by decide)⟩

/-! ## C8: active-only timing -/

/-- C8: for a descriptor with a body, on a clock whose readings are all
nonzero, the elapsed time after `runN` is the sum over the active timing spans
of the trial of (reading at span end - reading at span start), in 64-bit
arithmetic, hence that sum itself when it is an `int64` value. -/
theorem active_only_timing (clk : Clock) (hnz : ∀ i, clk i ≠ 0) (b : Benchmark)
    (n siz : Int) (w : World) (cs : List Call) (hb : bodyCalls b n siz = some cs) :
    ∃ w1, runN clk b n siz w = .ok w1 ∧
      w1.ns = wrap64 (spanSum (trialSpans clk cs w.tick)) ∧
      (isInt64 (spanSum (trialSpans clk cs w.tick)) →
        w1.ns = spanSum (trialSpans clk cs w.tick)) := by
  obtain ⟨w1, h1, h2⟩ := runN_spans clk hnz b n siz w cs hb
  exact ⟨w1, h1, h2, fun hr => by rw [h2]; exact wrap64_id _ hr.1 hr.2⟩

theorem tenClock_ne_zero : ∀ i, tenClock i ≠ 0 := by
  intro i
  unfold tenClock
  omega

/-- An instance of `active_only_timing`: the body pauses twice and resumes
twice on readings `10, 20, 30, 40`; the spans are `(10, 20)` and `(30, 40)`. -/
theorem active_only_timing_witness :
    trialSpans tenClock [.stopTiming, .stopTiming, .startTiming, .startTiming] 0
        = [(10, 20), (30, 40)] ∧
      ∃ w1, runN tenClock pausingBench 1 1 World.init = .ok w1 ∧ w1.ns = 20 := by
  obtain ⟨w1, h1, _, h3⟩ := active_only_timing tenClock tenClock_ne_zero pausingBench 1 1
    World.init [.stopTiming, .stopTiming, .startTiming, .startTiming] rfl
  exact ⟨by decide, w1, h1, h3 (by decide)⟩

/-! ## C9: the failure value of the clock -/

/-- C9, as stated, fails: when the start reading is `1000` and the end reading
is the failure value `-1`, the trial ends with `ns = -1001`. -/
theorem failed_end_reading_negative :
    ∃ w1, runN failingClock idleBench 1 1 World.init = .ok w1 ∧ w1.ns = -1001 ∧ w1.ns < 0 :=
  ⟨_, rfl, rfl, by decide⟩

/-- C9, amended: on a clock without zero readings every span contributes
(end reading - start reading), whether or not a bound is `-1`, and the trial
returns; when both readings of every span of the trial are `-1`, the elapsed
time is `0`.  The harness as a whole is not protected: on the readings
`4294967295`, `-1` (none is zero) the first trial returns with
`ns = -4294967296` and `RunBench` then divides by zero, whatever the fuel. -/
theorem sentinel_spans (clk : Clock) (hnz : ∀ i, clk i ≠ 0) (b : Benchmark)
    (n siz : Int) (w : World) (cs : List Call) (hb : bodyCalls b n siz = some cs) :
    (∃ w1, runN clk b n siz w = .ok w1 ∧
      w1.ns = wrap64 (spanSum (trialSpans clk cs w.tick)) ∧
      ((∀ s ∈ trialSpans clk cs w.tick, s.1 = -1 ∧ s.2 = -1) → w1.ns = 0)) ∧
      (∀ i, lateFailClock i ≠ 0) ∧ lateFailClock 1 = -1 ∧
      (∃ v1, runN lateFailClock idleBench 1 1 World.init = .ok v1 ∧ v1.ns = -4294967296) ∧
      ∀ fuel : Nat, ∃ v, RunBench lateFailClock (fuel + 1) idleBench 1 1 World.init
        = .divByZero v ∧ v.ns = -4294967296 := by
  refine ⟨?_, ?_, rfl, ⟨_, rfl, rfl⟩, fun fuel => ⟨_, rfl, rfl⟩⟩
  · obtain ⟨w1, h1, h2⟩ := runN_spans clk hnz b n siz w cs hb
    refine ⟨w1, h1, h2, fun hall => ?_⟩
    have hz : spanSum (trialSpans clk cs w.tick) = 0 := by
      unfold spanSum
      apply List.sum_eq_zero
      intro x hx
      obtain ⟨s, hs, rfl⟩ := List.mem_map.mp hx
      obtain ⟨a, c⟩ := hall s hs
      omega
    rw [h2, hz]
    decide
  · intro i
    unfold lateFailClock
    split_ifs <;> decide

theorem deadClock_ne_zero : ∀ i, deadClock i ≠ 0 := by
  intro i
  unfold deadClock
  omega

/-- An instance of `sentinel_spans`: every reading is `-1`. -/
theorem sentinel_spans_witness :
    (∀ i, deadClock i ≠ 0) ∧ bodyCalls idleBench 1 1 = some [] ∧
      ∃ w1, runN deadClock idleBench 1 1 World.init = .ok w1 ∧ w1.ns = 0 := by
  obtain ⟨⟨w1, h1, _, h3⟩, _⟩ := sentinel_spans deadClock deadClock_ne_zero idleBench 1 1
    World.init [] rfl
  exact ⟨deadClock_ne_zero, rfl, w1, h1, h3 (by decide)⟩

/-! ## C10: pausing and resuming twice -/

/-- C10: a second `StopBenchmarkTiming`, on any clock, leaves the state that
the first one produced (so it takes no reading and adds nothing to `ns`), in
which `t0 = 0`; `StartBenchmarkTiming` while `t0 != 0` leaves the state as it
is. -/
theorem pause_resume_idempotent (clk clk2 : Clock) (w : World) :
    StopBenchmarkTiming clk2 (StopBenchmarkTiming clk w) = StopBenchmarkTiming clk w ∧
      (StopBenchmarkTiming clk w).t0 = 0 ∧
      (StopBenchmarkTiming clk2 (StopBenchmarkTiming clk w)).ns = (StopBenchmarkTiming clk w).ns ∧
      (StopBenchmarkTiming clk2 (StopBenchmarkTiming clk w)).tick
        = (StopBenchmarkTiming clk w).tick ∧
      (w.t0 ≠ 0 → StartBenchmarkTiming clk w = w) := by
  have ht : (StopBenchmarkTiming clk w).t0 = 0 := rfl
  have e := stop_paused clk2 (StopBenchmarkTiming clk w) ht
  exact ⟨e, ht, by rw [e], by rw [e], start_active clk w⟩

/-- An instance of `pause_resume_idempotent` with timing active (`t0 = 7`). -/
theorem pause_resume_idempotent_witness :
    activeWorld.t0 ≠ 0 ∧ StartBenchmarkTiming tenClock activeWorld = activeWorld ∧
      StopBenchmarkTiming stillClock (StopBenchmarkTiming tenClock activeWorld)
        = StopBenchmarkTiming tenClock activeWorld :=
  ⟨by decide, (pause_resume_idempotent tenClock stillClock activeWorld).2.2.2.2 (by decide),
    (pause_resume_idempotent tenClock stillClock activeWorld).1⟩

/-! ## The trial loop -/

theorem runBody_frame (clk : Clock) :
    ∀ (cs : List Call) (w : World),
      (runBody clk cs w).out = w.out ∧ (runBody clk cs w).err = w.err ∧
        (runBody clk cs w).trials = w.trials := by
  intro cs
  induction cs with
  | nil => intro w; exact ⟨rfl, rfl, rfl⟩
  | cons c cs ih =>
    intro w
    rw [runBody_cons]
    obtain ⟨h1, h2, h3⟩ := ih (doCall clk w c)
    rw [h1, h2, h3]
    cases c with
    | setBytes x => exact ⟨rfl, rfl, rfl⟩
    | setItems x => exact ⟨rfl, rfl, rfl⟩
    | stopTiming =>
      simp only [doCall, StopBenchmarkTiming, addSpan_eq]
      split_ifs <;> exact ⟨rfl, rfl, rfl⟩
    | startTiming =>
      simp only [doCall, StartBenchmarkTiming, nsec]
      split_ifs <;> exact ⟨rfl, rfl, rfl⟩

/-- A trial that returns has printed nothing and has logged itself. -/
theorem runN_frame (clk : Clock) (b : Benchmark) (n siz : Int) (w w1 : World)
    (h : runN clk b n siz w = .ok w1) :
    w1.out = w.out ∧ w1.err = w.err ∧ w1.trials = w.trials ++ [(b.name, n, siz)] := by
  cases hb : bodyCalls b n siz with
  | none => rw [runN_none clk b n siz w hb] at h; cases h
  | some cs =>
    rw [runN_some clk b n siz w cs hb] at h
    cases h
    obtain ⟨h1, h2, h3⟩ := runBody_frame clk cs (trialStart clk b n siz w)
    unfold trialEnd
    split_ifs
    · rw [addSpan_eq]; exact ⟨h1, h2, h3⟩
    · exact ⟨h1, h2, h3⟩

theorem tdiv_zero_lt (a n : Int) (hn : 0 < n) (h : Int.tdiv a n = 0) : a < n := by
  have h1 := Int.tdiv_add_tmod a n
  have h2 := Int.tmod_lt_of_pos a hn
  rw [h, mul_zero, zero_add] at h1
  omega

/-- The loop of `RunBench` exits when its condition fails. -/
theorem trialLoop_exit (clk : Clock) (b : Benchmark) (siz : Int) (fuel : Nat) (n : Int)
    (w : World) (h : ¬ (w.ns < 1000000000 ∧ n < 1000000000)) :
    trialLoop clk b siz (fuel + 1) n w = .ok (n, w) := by
  simp only [trialLoop, h, if_false]

/-- One pass of the loop of `RunBench` when `ns/n` is `0`: the estimate is
`10^9`. -/
theorem trialLoop_idle_step (clk : Clock) (b : Benchmark) (siz : Int) (fuel : Nat)
    (n n1 : Int) (w : World) (hn : 0 < n) (hn9 : n < 1000000000)
    (hq : Int.tdiv w.ns n = 0) (hr : round (nextCount n 1000000000) = some n1) :
    trialLoop clk b siz (fuel + 1) n w =
      (runN clk b n1 siz w).bind (fun w1 => trialLoop clk b siz fuel n1 w1) := by
  have hns : w.ns < 1000000000 := by
    have := tdiv_zero_lt w.ns n hn hq
    omega
  have hn0 : n ≠ 0 := by omega
  have hw : wrap64 0 = 0 := by decide
  have he : estimate 0 = 1000000000 := rfl
  simp only [trialLoop, hns, hn9, and_self, if_true, hn0, if_false, hq, hw, ne_eq,
    not_true_eq_false, false_and, he, hr]

theorem res_bind_ok {α β : Type} (a : α) (f : α → Res β) : (Res.ok a).bind f = f a := rfl

/-- The calibration along six trials that return with `ns/n = 0`, with the
counts `1, 100, 10^4, 10^6, 10^8, 2*10^9`: with fuel for six passes `RunBench`
returns; it has run those trials and printed one line, with count
`2000000000` and `ns/n = 0`. -/
theorem idle_chain (clk : Clock) (b : Benchmark) (siz : Int) (fuel : Nat) (hf : 6 ≤ fuel)
    (w v1 v2 v3 v4 v5 v6 : World)
    (r1 : runN clk b 1 siz w = .ok v1) (q1 : Int.tdiv v1.ns 1 = 0)
    (r2 : runN clk b 100 siz v1 = .ok v2) (q2 : Int.tdiv v2.ns 100 = 0)
    (r3 : runN clk b 10000 siz v2 = .ok v3) (q3 : Int.tdiv v3.ns 10000 = 0)
    (r4 : runN clk b 1000000 siz v3 = .ok v4) (q4 : Int.tdiv v4.ns 1000000 = 0)
    (r5 : runN clk b 100000000 siz v4 = .ok v5) (q5 : Int.tdiv v5.ns 100000000 = 0)
    (r6 : runN clk b 2000000000 siz v5 = .ok v6) (q6 : Int.tdiv v6.ns 2000000000 = 0) :
    ∃ w1 line, RunBench clk fuel b 1 siz w = .ok w1 ∧ w1.out = w.out ++ [line] ∧
      line.n = 2000000000 ∧ line.nsPerOp = 0 ∧ line.name = b.name ∧
      line.suf = sizeSuffix b siz ∧ w1.err = w.err ∧
      w1.trials = w.trials ++ idleCounts.map (fun n => (b.name, n, siz)) := by
  obtain ⟨f, rfl⟩ : ∃ f, fuel = f + 1 + 1 + 1 + 1 + 1 + 1 := ⟨fuel - 6, by omega⟩
  have e : trialLoop clk b siz (f + 1 + 1 + 1 + 1 + 1 + 1) 1 v1 = .ok (2000000000, v6) := by
    rw [trialLoop_idle_step clk b siz _ 1 100 v1 (by decide) (by decide) q1 (by decide), r2,
      res_bind_ok,
      trialLoop_idle_step clk b siz _ 100 10000 v2 (by decide) (by decide) q2 (by decide), r3,
      res_bind_ok,
      trialLoop_idle_step clk b siz _ 10000 1000000 v3 (by decide) (by decide) q3 (by decide),
      r4, res_bind_ok,
      trialLoop_idle_step clk b siz _ 1000000 100000000 v4 (by decide) (by decide) q4
        (by decide), r5, res_bind_ok,
      trialLoop_idle_step clk b siz _ 100000000 2000000000 v5 (by decide) (by decide) q5
        (by decide), r6, res_bind_ok,
      trialLoop_exit clk b siz _ 2000000000 v6 (by intro h; exact absurd h.2 (by decide))]
  obtain ⟨o1, e1, t1⟩ := runN_frame clk b 1 siz w v1 r1
  obtain ⟨o2, e2, t2⟩ := runN_frame clk b 100 siz v1 v2 r2
  obtain ⟨o3, e3, t3⟩ := runN_frame clk b 10000 siz v2 v3 r3
  obtain ⟨o4, e4, t4⟩ := runN_frame clk b 1000000 siz v3 v4 r4
  obtain ⟨o5, e5, t5⟩ := runN_frame clk b 100000000 siz v4 v5 r5
  obtain ⟨o6, e6, t6⟩ := runN_frame clk b 2000000000 siz v5 v6 r6
  have hw : wrap64 0 = 0 := by decide
  refine ⟨{ v6 with out := v6.out ++
      [{ name := b.name, suf := sizeSuffix b siz, n := 2000000000,
         nsPerOp := wrap64 (Int.tdiv v6.ns 2000000000),
         mb := if v6.ns > 0 ∧ v6.bytes > 0 then some (v6.bytes, v6.ns) else none }] },
    { name := b.name, suf := sizeSuffix b siz, n := 2000000000,
      nsPerOp := wrap64 (Int.tdiv v6.ns 2000000000),
      mb := if v6.ns > 0 ∧ v6.bytes > 0 then some (v6.bytes, v6.ns) else none },
    ?_, ?_, rfl, ?_, rfl, rfl, ?_, ?_⟩
  · simp only [RunBench, ne_eq, not_true_eq_false, if_false, r1, res_bind_ok, e, report]
    rw [if_neg (by decide)]
  · simp only [o6, o5, o4, o3, o2, o1]
  · simp only [q6, hw]
  · simp only [e6, e5, e4, e3, e2, e1]
  · simp only [t6, t5, t4, t3, t2, t1, idleCounts, List.map, List.append_assoc,
      List.singleton_append, List.cons_append, List.nil_append]

/-- The calibration of a body that does no measurable work: with fuel for six
passes `RunBench` returns; it has run the trials `1, 100, 10^4, 10^6, 10^8,
2*10^9` and printed one line, with count `2000000000` and `ns/n = 0`. -/
theorem idle_calibration (clk : Clock) (b : Benchmark) (siz : Int)
    (H : idleTrials clk b siz) (fuel : Nat) (hf : 6 ≤ fuel) (w : World) :
    ∃ w1 line, RunBench clk fuel b 1 siz w = .ok w1 ∧ w1.out = w.out ++ [line] ∧
      line.n = 2000000000 ∧ line.nsPerOp = 0 ∧ line.name = b.name ∧
      line.suf = sizeSuffix b siz ∧ w1.err = w.err ∧
      w1.trials = w.trials ++ idleCounts.map (fun n => (b.name, n, siz)) := by
  obtain ⟨v1, r1, q1⟩ := H 1 w
  obtain ⟨v2, r2, q2⟩ := H 100 v1
  obtain ⟨v3, r3, q3⟩ := H 10000 v2
  obtain ⟨v4, r4, q4⟩ := H 1000000 v3
  obtain ⟨v5, r5, q5⟩ := H 100000000 v4
  obtain ⟨v6, r6, q6⟩ := H 2000000000 v5
  exact idle_chain clk b siz fuel hf w v1 v2 v3 v4 v5 v6 r1 q1 r2 q2 r3 q3 r4 q4 r5 q5 r6 q6

/-- On the clock that always reads `1`, every trial of the body that makes no
call returns with `ns = 0`. -/
theorem idleTrials_still (siz : Int) : idleTrials stillClock idleBench siz := by
  intro n w
  obtain ⟨w1, h1, h2, _⟩ := runN_untimed stillClock idleBench n siz w [] rfl
    (by intro c hc; cases hc)
  refine ⟨w1, h1, ?_⟩
  have h3 := (h2 (by simp [stillClock])).1
  have h4 : wrap64 (stillClock (w.tick + 1) - stillClock w.tick) = 0 := by
    simp [stillClock, wrap64]
  rw [h3, h4]
  exact Int.zero_tdiv n

/-! ## C4: the body that does no work -/

/-- C4, as stated, fails: for the body that makes no call, on a clock on which
no time passes (`ns = 0` on every trial), `RunBench` returns and the line it
prints carries the count `2000000000`, not `1000000000`. -/
theorem idle_count_not_1e9 :
    ∃ w1 line, RunBench stillClock 6 idleBench 1 1 World.init = .ok w1 ∧ w1.out = [line] ∧
      line.n = 2000000000 ∧ line.n ≠ 1000000000 := by
  obtain ⟨w1, line, h1, h2, h3, _⟩ :=
    idle_calibration stillClock idleBench 1 (idleTrials_still 1) 6 (by decide) World.init
  exact ⟨w1, line, h1, by simpa [World.init] using h2, h3, by rw [h3]; decide⟩

/-! ## The trial loop in general -/

theorem tdiv_1e9_bounds (d : Int) (hd : d ≠ 0) :
    -1000000000 ≤ Int.tdiv 1000000000 d ∧ Int.tdiv 1000000000 d ≤ 1000000000 := by
  rcases lt_or_gt_of_ne hd with h | h
  · have e : d = -(-d) := by omega
    rw [e, Int.tdiv_neg, Int.tdiv_eq_ediv (by norm_num) (by omega)]
    have h1 : (1000000000 : Int) / (-d) ≤ 1000000000 := Int.ediv_le_self _ (by norm_num)
    have h2 : 0 ≤ (1000000000 : Int) / (-d) := Int.ediv_nonneg (by norm_num) (by omega)
    omega
  · rw [Int.tdiv_eq_ediv (by norm_num) (by omega)]
    have h1 : (1000000000 : Int) / d ≤ 1000000000 := Int.ediv_le_self _ (by norm_num)
    have h2 : 0 ≤ (1000000000 : Int) / d := Int.ediv_nonneg (by norm_num) (by omega)
    omega

theorem tdiv_two (x : Int) :
    (0 ≤ x → Int.tdiv x 2 = x / 2) ∧ (x < 0 → Int.tdiv x 2 = -((-x) / 2)) := by
  constructor
  · intro h
    exact Int.tdiv_eq_ediv h (by norm_num)
  · intro h
    have e : x = -(-x) := by omega
    rw [e, Int.neg_tdiv, Int.tdiv_eq_ediv (by omega) (by norm_num)]
    simp

/-- The estimate is between `-10^9` and `10^9` when the division is defined. -/
theorem estimate_bounds (q : Int) (h : ¬ zeroDivisor q) :
    -1000000000 ≤ estimate q ∧ estimate q ≤ 1000000000 := by
  unfold estimate
  by_cases h0 : q = 0
  · simp [h0]
  · have hd : wrap32 q ≠ 0 := fun hz => h ⟨h0, hz⟩
    have hb := tdiv_1e9_bounds (wrap32 q) hd
    rw [if_neg h0, wrap32_id _ (by omega) (by omega)]
    exact hb

/-- The count chosen before rounding is above the last count and at most
`1.5 * 10^9`. -/
theorem nextCount_bounds (last est : Int) (h1 : 1 ≤ last) (h2 : last < 1000000000)
    (h3 : -1000000000 ≤ est) (h4 : est ≤ 1000000000) :
    last + 1 ≤ nextCount last est ∧ nextCount last est ≤ 1500000000 := by
  unfold nextCount
  have ht := tdiv_two est
  have hr := wrap32_range (100 * last)
  have e1 : wrap32 (last + 1) = last + 1 := wrap32_id _ (by omega) (by omega)
  rw [e1]
  by_cases hs : 0 ≤ est
  · have e2 := ht.1 hs
    have e3 : wrap32 (est + Int.tdiv est 2) = est + Int.tdiv est 2 :=
      wrap32_id _ (by omega) (by omega)
    rw [e3]
    omega
  · have e2 := ht.2 (by omega)
    have e3 : wrap32 (est + Int.tdiv est 2) = est + Int.tdiv est 2 :=
      wrap32_id _ (by omega) (by omega)
    rw [e3]
    omega

/-- One pass of the loop of `RunBench`, in general. -/
theorem trialLoop_step (clk : Clock) (b : Benchmark) (siz : Int) (fuel : Nat)
    (n : Int) (w : World) (hc : w.ns < 1000000000 ∧ n < 1000000000) (hn : 1 ≤ n) :
    (zeroDivisor (wrap64 (Int.tdiv w.ns n)) ∧
        trialLoop clk b siz (fuel + 1) n w = .divByZero w) ∨
      (¬ zeroDivisor (wrap64 (Int.tdiv w.ns n)) ∧
        ∃ n1, round (nextCount n (estimate (wrap64 (Int.tdiv w.ns n)))) = some n1 ∧
          n + 1 ≤ n1 ∧ n1 ≤ 2000000000 ∧
          trialLoop clk b siz (fuel + 1) n w =
            (runN clk b n1 siz w).bind (fun w1 => trialLoop clk b siz fuel n1 w1)) := by
  have hn0 : n ≠ 0 := by omega
  by_cases hz : zeroDivisor (wrap64 (Int.tdiv w.ns n))
  · left
    refine ⟨hz, ?_⟩
    have hz2 := hz
    unfold zeroDivisor at hz2
    simp only [trialLoop, hc, and_self, if_true, hn0, if_false, hz2, ne_eq]
    simp
  · right
    refine ⟨hz, ?_⟩
    obtain ⟨b1, b2⟩ := estimate_bounds _ hz
    obtain ⟨c1, c2⟩ := nextCount_bounds n _ hn hc.2 b1 b2
    obtain ⟨v, hv, hv1, hv2⟩ :=
      round_total (nextCount n (estimate (wrap64 (Int.tdiv w.ns n)))) (by omega) (by omega)
    refine ⟨v, hv, by omega, hv2, ?_⟩
    have hz2 : ¬ (wrap64 (Int.tdiv w.ns n) ≠ 0 ∧ wrap32 (wrap64 (Int.tdiv w.ns n)) = 0) := hz
    simp only [trialLoop, hc, and_self, if_true, hn0, if_false, hz2, hv]

/-- The outcome of the loop of `RunBench` entered after a trial with count `n`,
for a descriptor with a body: with enough fuel the loop either exits, after a
trial whose elapsed time or count has reached `10^9`, or stops in a division
by zero, after a trial whose quotient `ns/n` is not zero but is zero as an
`int`. -/
theorem trialLoop_outcome (clk : Clock) (b : Benchmark) (siz : Int)
    (hbody : ∀ n, bodyCalls b n siz ≠ none) :
    ∀ (m : Nat) (n : Int) (w : World) (fuel : Nat), 1 ≤ n → n ≤ 2000000000 →
      (∃ v0, runN clk b n siz v0 = .ok w) →
      (1000000000 - n).toNat ≤ m → m < fuel →
      (∃ n1 w1, trialLoop clk b siz fuel n w = .ok (n1, w1) ∧
          (1000000000 ≤ w1.ns ∨ 1000000000 ≤ n1) ∧ n ≤ n1 ∧ n1 ≤ 2000000000 ∧
          w1.out = w.out ∧ ∃ v0, runN clk b n1 siz v0 = .ok w1) ∨
        (∃ n1 v, trialLoop clk b siz fuel n w = .divByZero v ∧ 1 ≤ n1 ∧
          v.ns < 1000000000 ∧ zeroDivisor (wrap64 (Int.tdiv v.ns n1)) ∧
          v.out = w.out ∧ ∃ v0, runN clk b n1 siz v0 = .ok v) := by
  intro m
  induction m with
  | zero =>
    intro n w fuel h1 h2 ht hm hf
    obtain ⟨f, rfl⟩ : ∃ f, fuel = f + 1 := ⟨fuel - 1, by omega⟩
    left
    have hge : 1000000000 ≤ n := by omega
    exact ⟨n, w, trialLoop_exit clk b siz f n w (by omega), Or.inr hge, le_refl _, h2, rfl, ht⟩
  | succ m ih =>
    intro n w fuel h1 h2 ht hm hf
    obtain ⟨f, rfl⟩ : ∃ f, fuel = f + 1 := ⟨fuel - 1, by omega⟩
    by_cases hc : w.ns < 1000000000 ∧ n < 1000000000
    · rcases trialLoop_step clk b siz f n w hc h1 with ⟨hz, e⟩ | ⟨_, n1, _, hlo, hhi, e⟩
      · right
        exact ⟨n, w, e, h1, hc.1, hz, rfl, ht⟩
      · cases hb : bodyCalls b n1 siz with
        | none => exact absurd hb (hbody n1)
        | some cs =>
          have hr := runN_some clk b n1 siz w cs hb
          obtain ⟨ho, _, _⟩ := runN_frame clk b n1 siz w _ hr
          rw [e, hr, res_bind_ok]
          rcases ih n1 _ f (by omega) hhi ⟨w, hr⟩ (by omega) (by omega) with
            ⟨n2, w2, e2, hstop, hle, hle2, ho2, ht2⟩ | ⟨n2, v, e2, hp, hlt, hz, ho2, ht2⟩
          · left
            exact ⟨n2, w2, e2, hstop, by omega, hle2, by rw [ho2, ho], ht2⟩
          · right
            exact ⟨n2, v, e2, hp, hlt, hz, by rw [ho2, ho], ht2⟩
    · left
      refine ⟨n, w, trialLoop_exit clk b siz f n w hc, ?_, le_refl _, h2, rfl, ht⟩
      by_contra hcon
      exact hc ⟨by omega, by omega⟩

/-- The outcome of `RunBench` for a descriptor with a body, with fuel for
`10^9` passes: either it returns, having printed one line for a last trial
whose elapsed time or count has reached `10^9`, or it stops in a division by
zero after a trial whose quotient `ns/n` is a nonzero multiple of `2^32`. -/
theorem calibration_outcome (clk : Clock) (b : Benchmark) (siz : Int)
    (hbody : ∀ n, bodyCalls b n siz ≠ none) (fuel : Nat) (hf : 1000000000 ≤ fuel)
    (w : World) :
    (∃ w1 line, RunBench clk fuel b 1 siz w = .ok w1 ∧ w1.out = w.out ++ [line] ∧
        (1000000000 ≤ w1.ns ∨ 1000000000 ≤ line.n) ∧ 1 ≤ line.n ∧ line.n ≤ 2000000000 ∧
        line.nsPerOp = wrap64 (Int.tdiv w1.ns line.n)) ∨
      (∃ n1 v, RunBench clk fuel b 1 siz w = .divByZero v ∧ 1 ≤ n1 ∧ v.ns < 1000000000 ∧
        zeroDivisor (wrap64 (Int.tdiv v.ns n1)) ∧ v.out = w.out ∧
        ∃ v0, runN clk b n1 siz v0 = .ok v) := by
  cases hb : bodyCalls b 1 siz with
  | none => exact absurd hb (hbody 1)
  | some cs =>
    have hr := runN_some clk b 1 siz w cs hb
    obtain ⟨ho, _, _⟩ := runN_frame clk b 1 siz w _ hr
    rcases trialLoop_outcome clk b siz hbody 999999999 1 _ fuel (by decide) (by decide)
        ⟨w, hr⟩ (by decide) (by omega) with
      ⟨n2, w2, e2, hstop, hle, hle2, ho2, ht2⟩ | ⟨n2, v, e2, hp, hlt, hz, ho2, ht2⟩
    · left
      have hn0 : n2 ≠ 0 := by omega
      refine ⟨{ w2 with out := w2.out ++
          [{ name := b.name, suf := sizeSuffix b siz, n := n2,
             nsPerOp := wrap64 (Int.tdiv w2.ns n2),
             mb := if w2.ns > 0 ∧ w2.bytes > 0 then some (w2.bytes, w2.ns) else none }] },
        { name := b.name, suf := sizeSuffix b siz, n := n2,
          nsPerOp := wrap64 (Int.tdiv w2.ns n2),
          mb := if w2.ns > 0 ∧ w2.bytes > 0 then some (w2.bytes, w2.ns) else none },
        ?_, ?_, hstop, hle, hle2, rfl⟩
      · simp only [RunBench, ne_eq, not_true_eq_false, if_false, hr, res_bind_ok, e2, report,
          hn0]
      · simp only [ho2, ho]
    · right
      refine ⟨n2, v, ?_, hp, hlt, hz, by rw [ho2, ho], ht2⟩
      simp only [RunBench, ne_eq, not_true_eq_false, if_false, hr, res_bind_ok, e2]
      rfl

/-- A quotient `ns/n` with `0 <= ns < 10^9` and `n >= 1` is an `int`: it is
zero as an `int` only when it is zero. -/
theorem nonneg_not_zeroDivisor (ns n : Int) (h0 : 0 ≤ ns) (hlt : ns < 1000000000)
    (hn : 1 ≤ n) : ¬ zeroDivisor (wrap64 (Int.tdiv ns n)) := by
  rintro ⟨hq0, hq⟩
  have hq1 : 0 ≤ Int.tdiv ns n := Int.tdiv_nonneg h0 (by omega)
  have hq2 : Int.tdiv ns n ≤ ns := by
    rw [Int.tdiv_eq_ediv h0 (by omega)]
    exact Int.ediv_le_self _ h0
  have e1 : wrap64 (Int.tdiv ns n) = Int.tdiv ns n := wrap64_id _ (by omega) (by omega)
  rw [e1] at hq0 hq
  rw [wrap32_id _ (by omega) (by omega)] at hq
  exact hq0 hq

/-- When no trial has a negative elapsed time, `RunBench` returns (with fuel
for `10^9` passes) and its last trial has `ns >= 10^9` or `n >= 10^9`. -/
theorem calibration_terminates (clk : Clock) (b : Benchmark) (siz : Int)
    (hbody : ∀ n, bodyCalls b n siz ≠ none)
    (hpos : ∀ n v0 v, runN clk b n siz v0 = .ok v → 0 ≤ v.ns)
    (fuel : Nat) (hf : 1000000000 ≤ fuel) (w : World) :
    ∃ w1 line, RunBench clk fuel b 1 siz w = .ok w1 ∧ w1.out = w.out ++ [line] ∧
      (1000000000 ≤ w1.ns ∨ 1000000000 ≤ line.n) ∧ 1 ≤ line.n ∧ line.n ≤ 2000000000 := by
  rcases calibration_outcome clk b siz hbody fuel hf w with
    ⟨w1, line, h1, h2, h3, h4, h5, _⟩ | ⟨n1, v, _, hn, hlt, ⟨hq0, hq⟩, _, v0, hv⟩
  · exact ⟨w1, line, h1, h2, h3, h4, h5⟩
  · exact absurd ⟨hq0, hq⟩ (nonneg_not_zeroDivisor v.ns n1 (hpos n1 v0 v hv) hlt hn)

/-! ## C1: calibration stops -/

/-- C1 fails on the clock readings `4294967295`, `-1`: the first trial ends
with `ns = -4294967296`, the quotient `ns/n` is not zero but is zero as an
`int`, and `RunBench` divides by zero, whatever the fuel. -/
theorem calibration_division_by_zero :
    ∀ fuel : Nat, ∃ v, RunBench lateFailClock (fuel + 1) idleBench 1 1 World.init
        = .divByZero v ∧ v.ns = -4294967296 ∧ v.trials = [("idle", 1, 1)] ∧ v.out = [] ∧
      zeroDivisor (wrap64 (Int.tdiv v.ns 1)) := by
  intro fuel
  exact ⟨_, rfl, rfl, rfl, rfl, by decide, by decide⟩

/-! ## The sweep of `main` -/

/-- With a thread count other than 1 `RunBench` returns at once: no trial, no
line, no clock reading. -/
theorem RunBench_other_thread (clk : Clock) (fuel : Nat) (b : Benchmark) (j siz : Int)
    (w : World) (hj : j ≠ 1) : RunBench clk fuel b j siz w = .ok w := by
  simp [RunBench, hj]

/-- With whatever fuel, the loop of `RunBench` ends normally or for lack of
fuel when the descriptor has a body and no trial has a negative elapsed time. -/
theorem trialLoop_ok_or_fuel (clk : Clock) (b : Benchmark) (siz : Int)
    (hbody : ∀ n, bodyCalls b n siz ≠ none)
    (hpos : ∀ n v0 v, runN clk b n siz v0 = .ok v → 0 ≤ v.ns) :
    ∀ (fuel : Nat) (n : Int) (w : World), 1 ≤ n → (∃ v0, runN clk b n siz v0 = .ok w) →
      (∃ n1 w1, trialLoop clk b siz fuel n w = .ok (n1, w1) ∧ 1 ≤ n1) ∨
        (∃ v, trialLoop clk b siz fuel n w = .fuel v) := by
  intro fuel
  induction fuel with
  | zero => intro n w _ _; exact Or.inr ⟨w, rfl⟩
  | succ f ih =>
    intro n w h1 ht
    by_cases hc : w.ns < 1000000000 ∧ n < 1000000000
    · obtain ⟨v0, hv0⟩ := ht
      rcases trialLoop_step clk b siz f n w hc h1 with ⟨hz, _⟩ | ⟨_, n1, _, hlo, _, e⟩
      · exact absurd hz (nonneg_not_zeroDivisor w.ns n (hpos n v0 w hv0) hc.1 h1)
      · cases hb : bodyCalls b n1 siz with
        | none => exact absurd hb (hbody n1)
        | some cs =>
          have hr := runN_some clk b n1 siz w cs hb
          rw [e, hr, res_bind_ok]
          exact ih n1 _ (by omega) ⟨w, hr⟩
    · exact Or.inl ⟨_, _, trialLoop_exit clk b siz f n w hc, h1⟩

/-- Under the same hypotheses `RunBench` ends normally or for lack of fuel. -/
theorem RunBench_ok_or_fuel (clk : Clock) (b : Benchmark) (siz : Int)
    (hbody : ∀ n, bodyCalls b n siz ≠ none)
    (hpos : ∀ n v0 v, runN clk b n siz v0 = .ok v → 0 ≤ v.ns)
    (fuel : Nat) (j : Int) (w : World) :
    (∃ w1, RunBench clk fuel b j siz w = .ok w1) ∨
      (∃ v, RunBench clk fuel b j siz w = .fuel v) := by
  by_cases hj : j = 1
  · subst hj
    cases hb : bodyCalls b 1 siz with
    | none => exact absurd hb (hbody 1)
    | some cs =>
      have hr := runN_some clk b 1 siz w cs hb
      rcases trialLoop_ok_or_fuel clk b siz hbody hpos fuel 1 _ (by decide) ⟨w, hr⟩ with
        ⟨n1, w1, e, hn1⟩ | ⟨v, e⟩
      · left
        have hn0 : n1 ≠ 0 := by omega
        simp only [RunBench, ne_eq, not_true_eq_false, if_false, hr, res_bind_ok, e, report, hn0]
        exact ⟨_, rfl⟩
      · right
        simp only [RunBench, ne_eq, not_true_eq_false, if_false, hr, res_bind_ok, e]
        exact ⟨v, rfl⟩
  · exact Or.inl ⟨w, RunBench_other_thread clk fuel b j siz w hj⟩

/-- The values the size loop of `main` passes through from `k = 1` when
`hi = 2^30`: the powers of two up to `2^30`, then `-2^31`, then `0`. -/
theorem doubling_closed (k : Int)
    (hk : k = 0 ∨ k = -2147483648 ∨ ∃ e : Nat, e ≤ 30 ∧ k = 2 ^ e) :
    k ≤ 1073741824 ∧
      (wrap32 (k * 2) = 0 ∨ wrap32 (k * 2) = -2147483648 ∨
        ∃ e : Nat, e ≤ 30 ∧ wrap32 (k * 2) = 2 ^ e) := by
  rcases hk with rfl | rfl | ⟨e, he, rfl⟩
  · exact ⟨by decide, Or.inl (by decide)⟩
  · exact ⟨by decide, Or.inl (by decide)⟩
  · have hle : (2 : Int) ^ e ≤ 2 ^ 30 := pow_le_pow_right₀ (by norm_num) he
    have hpos : (0 : Int) < 2 ^ e := by positivity
    norm_num at hle
    refine ⟨hle, ?_⟩
    by_cases h30 : e = 30
    · subst h30
      exact Or.inr (Or.inl (by decide))
    · refine Or.inr (Or.inr ⟨e + 1, by omega, ?_⟩)
      have hle2 : (2 : Int) ^ (e + 1) ≤ 2 ^ 30 := pow_le_pow_right₀ (by norm_num) (by omega)
      norm_num at hle2
      rw [pow_succ] at hle2 ⊢
      exact wrap32_id _ (by omega) (by omega)

/-- The size loop for `hi = 2^30` never exits: whatever the fuel, it is used up. -/
theorem sizeLoop_wide (clk : Clock) (b : Benchmark) (hhi : b.hi = 1073741824)
    (hbody : ∀ n siz, bodyCalls b n siz ≠ none)
    (hpos : ∀ n siz v0 v, runN clk b n siz v0 = .ok v → 0 ≤ v.ns) (fuel : Nat) (j : Int) :
    ∀ (i : Nat) (k : Int) (w : World),
      (k = 0 ∨ k = -2147483648 ∨ ∃ e : Nat, e ≤ 30 ∧ k = 2 ^ e) →
      ∃ v, sizeLoop clk fuel b j i k w = .fuel v := by
  intro i
  induction i with
  | zero => intro k w _; exact ⟨w, rfl⟩
  | succ i ih =>
    intro k w hk
    obtain ⟨hle, hnext⟩ := doubling_closed k hk
    have hc : k ≤ max b.hi 1 := by rw [hhi]; omega
    simp only [sizeLoop, hc, if_true]
    rcases RunBench_ok_or_fuel clk b k (fun n => hbody n k) (fun n => hpos n k) fuel j w with
      ⟨w1, e⟩ | ⟨v, e⟩
    · rw [e, res_bind_ok]
      exact ih _ w1 hnext
    · rw [e]
      exact ⟨v, rfl⟩

/-- On the clock that always reads `1` a trial whose body makes no timing call
ends with `ns = 0`. -/
theorem still_ns_zero (b : Benchmark) (n siz : Int) (w v : World) (cs : List Call)
    (hb : bodyCalls b n siz = some cs) (hq : ∀ c ∈ cs, Call.isTiming c = false)
    (h : runN stillClock b n siz w = .ok v) : v.ns = 0 := by
  obtain ⟨w1, h1, h2, _⟩ := runN_untimed stillClock b n siz w cs hb hq
  rw [h] at h1
  cases h1
  rw [(h2 (by simp [stillClock])).1]
  simp [stillClock, wrap64]

/-! ## C6: the size and thread sweep -/

/-- C6 fails for the size range `1 .. 2^30` (thread range `1 .. 1`): `k <<= 1`
takes `k` from `2^30` to `-2^31` and then to `0`, so the size loop of `main`
never exits (whatever the fuel, it is used up), and after the calibrations for
`1, 2, 4, ..., 2^30` it runs calibrations for the sizes `-2147483648` and `0`. -/
theorem sweep_overflows :
    (∀ fuel : Nat, ∃ v,
        main stillClock fuel (fun _ _ => true) ["prog"] [wideBench] World.init = .fuel v) ∧
      (Res.fuelState
          (main stillClock 33 (fun _ _ => true) ["prog"] [wideBench] World.init)).map
        calibratedSizes = some (doublings 32 1 1073741824 ++ [-2147483648, 0]) := by
  constructor
  · intro fuel
    have hm : matchName (fun _ _ => true) wideBench.name ["prog"] = true := rfl
    simp only [main, benchLoop, hm, if_true]
    cases fuel with
    | zero => exact ⟨_, rfl⟩
    | succ f =>
      have hj : (wideBench.threadlo : Int) ≤ wideBench.threadhi := by decide
      simp only [threadLoop, hj, if_true]
      obtain ⟨v, hv⟩ := sizeLoop_wide stillClock wideBench rfl
        (fun n siz => by simp [bodyCalls, wideBench])
        (fun n siz v0 v h => by
          have := still_ns_zero wideBench n siz v0 v [] rfl (by intro c hc; cases hc) h
          omega)
        (f + 1) wideBench.threadlo (f + 1) (max wideBench.lo 1) World.init
        (Or.inr (Or.inr ⟨0, by decide, by decide⟩))
      rw [hv]
      exact ⟨v, rfl⟩
  · set_option maxRecDepth 1000000 in decide

/-! ## The sweep where nothing overflows -/

/-- Either `runN` returns or it exits: it has no other outcome. -/
theorem runN_ok_or_exit (clk : Clock) (b : Benchmark) (n siz : Int) (w : World) :
    (∃ v, runN clk b n siz w = .ok v) ∨ (∃ v, runN clk b n siz w = .exit 2 v) := by
  cases hb : bodyCalls b n siz with
  | none => exact Or.inr ⟨_, runN_none clk b n siz w hb⟩
  | some cs => exact Or.inl ⟨_, runN_some clk b n siz w cs hb⟩

/-- The trials logged by the loop of `RunBench` have counts other than `1`;
the loop prints nothing. -/
theorem trialLoop_trials (clk : Clock) (b : Benchmark) (siz : Int) :
    ∀ (fuel : Nat) (n : Int) (w : World) (n1 : Int) (w1 : World), 1 ≤ n →
      trialLoop clk b siz fuel n w = .ok (n1, w1) →
      1 ≤ n1 ∧ w1.out = w.out ∧ w1.err = w.err ∧
        ∃ extra, w1.trials = w.trials ++ extra ∧ ∀ t ∈ extra, t.2.1 ≠ 1 := by
  intro fuel
  induction fuel with
  | zero => intro n w n1 w1 _ h; simp [trialLoop] at h
  | succ f ih =>
    intro n w n1 w1 hn h
    by_cases hc : w.ns < 1000000000 ∧ n < 1000000000
    · rcases trialLoop_step clk b siz f n w hc hn with ⟨_, e⟩ | ⟨_, n2, _, hlo, _, e⟩
      · rw [e] at h; cases h
      · rw [e] at h
        rcases runN_ok_or_exit clk b n2 siz w with ⟨v, hv⟩ | ⟨v, hv⟩
        · rw [hv, res_bind_ok] at h
          obtain ⟨o, er, t⟩ := runN_frame clk b n2 siz w v hv
          obtain ⟨p1, p2, p3, extra, p4, p5⟩ := ih n2 v n1 w1 (by omega) h
          refine ⟨p1, by rw [p2, o], by rw [p3, er], (b.name, n2, siz) :: extra, ?_, ?_⟩
          · rw [p4, t, List.append_assoc]
            rfl
          · intro x hx
            rcases List.mem_cons.mp hx with rfl | hx
            · show n2 ≠ 1
              omega
            · exact p5 x hx
        · rw [hv] at h
          cases h
    · rw [trialLoop_exit clk b siz f n w hc] at h
      cases h
      exact ⟨hn, rfl, rfl, [], by simp, by intro t ht; cases ht⟩

/-- A calibration that returns has logged exactly one trial with count `1`,
for its size, and has printed exactly one line. -/
theorem RunBench_calibrated (clk : Clock) (fuel : Nat) (b : Benchmark) (siz : Int)
    (w w1 : World) (h : RunBench clk fuel b 1 siz w = .ok w1) :
    calibratedSizes w1 = calibratedSizes w ++ [siz] ∧ w1.err = w.err ∧
      ∃ line, w1.out = w.out ++ [line] ∧ line.name = b.name ∧ line.suf = sizeSuffix b siz := by
  simp only [RunBench, ne_eq, not_true_eq_false, if_false] at h
  rcases runN_ok_or_exit clk b 1 siz w with ⟨v, hv⟩ | ⟨v, hv⟩
  · rw [hv, res_bind_ok] at h
    obtain ⟨o, er, t⟩ := runN_frame clk b 1 siz w v hv
    cases hl : trialLoop clk b siz fuel 1 v with
    | ok r =>
      obtain ⟨n1, v1⟩ := r
      obtain ⟨p1, p2, p3, extra, p4, p5⟩ := trialLoop_trials clk b siz fuel 1 v n1 v1 (by decide) hl
      rw [hl, res_bind_ok] at h
      have hn0 : n1 ≠ 0 := by omega
      simp only [report, hn0, if_false] at h
      cases h
      refine ⟨?_, by simp only [p3, er],
        { name := b.name, suf := sizeSuffix b siz, n := n1, nsPerOp := wrap64 (v1.ns.tdiv n1),
          mb := if v1.ns > 0 ∧ v1.bytes > 0 then some (v1.bytes, v1.ns) else none },
        by simp only [p2, o], rfl, rfl⟩
      have hf : extra.filter (fun t => decide (t.2.1 = 1)) = [] := by
        rw [List.filter_eq_nil_iff]
        intro x hx
        simpa using p5 x hx
      simp only [calibratedSizes, p4, t, List.filter_append, hf, List.append_nil, List.map_append]
      simp
    | exit c v1 => rw [hl] at h; cases h
    | divByZero v1 => rw [hl] at h; cases h
    | hang v1 => rw [hl] at h; cases h
    | fuel v1 => rw [hl] at h; cases h
  · rw [hv] at h
    cases h

/-- The list `doublings` as a filter of the sizes `k * 2^t`. -/
theorem doublings_filter (hi : Int) :
    ∀ (i : Nat) (k : Int), 1 ≤ k →
      doublings i k hi = ((List.range i).map (fun t => k * 2 ^ t)).filter (fun s => s ≤ hi) := by
  intro i
  induction i with
  | zero => intro k _; rfl
  | succ i ih =>
    intro k hk
    have hmap : (List.range (i + 1)).map (fun t => k * 2 ^ t)
        = k :: (List.range i).map (fun t => (2 * k) * 2 ^ t) := by
      rw [List.range_succ_eq_map, List.map_cons, List.map_map]
      simp only [pow_zero, mul_one, List.cons.injEq, true_and]
      apply List.map_congr_left
      intro t _
      simp only [Function.comp, pow_succ]
      ring
    rw [hmap]
    simp only [doublings]
    by_cases hle : k ≤ hi
    · rw [if_pos hle, List.filter_cons_of_pos (by simpa using hle), ih (2 * k) (by omega)]
    · rw [if_neg hle, List.filter_cons_of_neg (by simpa using hle)]
      symm
      rw [List.filter_eq_nil_iff]
      intro x hx
      obtain ⟨t, _, rfl⟩ := List.mem_map.mp hx
      have hp : (1 : Int) ≤ 2 ^ t := one_le_pow₀ (by norm_num)
      have : k ≤ 2 * k * 2 ^ t := by nlinarith
      simp only [decide_eq_true_eq, not_le]
      omega

/-- With 31 steps or more and `hi < 2^31`, `doublings` lists the sizes of the
sweep. -/
theorem doublings_sweepSizes (i : Nat) (k hi : Int) (hk : 1 ≤ k) (hhi : hi < 2147483648)
    (hi31 : 31 ≤ i) : doublings i k hi = sweepSizes k hi := by
  rw [doublings_filter hi i k hk, sweepSizes]
  obtain ⟨d, rfl⟩ : ∃ d, i = 31 + d := ⟨i - 31, by omega⟩
  rw [List.range_add, List.map_append, List.filter_append]
  have hnil : List.filter (fun s => decide (s ≤ hi))
      (List.map (fun t => k * 2 ^ t) (List.map (fun x => 31 + x) (List.range d))) = [] := by
    rw [List.filter_eq_nil_iff]
    intro x hx
    obtain ⟨t, ht, rfl⟩ := List.mem_map.mp hx
    obtain ⟨u, _, rfl⟩ := List.mem_map.mp ht
    have hp : (2 : Int) ^ 31 ≤ 2 ^ (31 + u) := pow_le_pow_right₀ (by norm_num) (by omega)
    have hq : (0 : Int) < 2 ^ (31 + u) := by positivity
    norm_num at hp
    have : (2 : Int) ^ (31 + u) ≤ k * 2 ^ (31 + u) := by nlinarith
    simp only [decide_eq_true_eq, not_le]
    omega
  rw [hnil, List.append_nil]

/-- The size loop of `main` for thread count 1, when the upper bound of the
sweep is below `2^30` and every calibration returns: the loop exits, and it
has run one calibration for each size `k, 2k, 4k, ...` up to the bound. -/
theorem sizeLoop_sweep (clk : Clock) (b : Benchmark) (fuel : Nat)
    (hf : 1000000000 ≤ fuel) (hbody : ∀ n siz, bodyCalls b n siz ≠ none)
    (hpos : ∀ n siz v0 v, runN clk b n siz v0 = .ok v → 0 ≤ v.ns)
    (hhi : b.hi < 1073741824) :
    ∀ (m i : Nat) (k : Int) (w : World), m < i → 1 ≤ k → max b.hi 1 < k * 2 ^ m →
      ∃ w1, sizeLoop clk fuel b 1 i k w = .ok w1 ∧
        calibratedSizes w1 = calibratedSizes w ++ doublings i k (max b.hi 1) ∧
        w1.err = w.err ∧
        w1.out.length = w.out.length + (doublings i k (max b.hi 1)).length := by
  intro m
  induction m with
  | zero =>
    intro i k w hi hk hlt
    obtain ⟨i0, rfl⟩ : ∃ i0, i = i0 + 1 := ⟨i - 1, by omega⟩
    have hc : ¬ k ≤ max b.hi 1 := by simp only [pow_zero, mul_one] at hlt; omega
    exact ⟨w, by simp only [sizeLoop, hc, if_false], by simp [doublings, hc], rfl,
      by simp [doublings, hc]⟩
  | succ m ih =>
    intro i k w hi hk hlt
    obtain ⟨i0, rfl⟩ : ∃ i0, i = i0 + 1 := ⟨i - 1, by omega⟩
    by_cases hc : k ≤ max b.hi 1
    · obtain ⟨w1, line, h1, _⟩ := calibration_terminates clk b k (fun n => hbody n k)
        (fun n => hpos n k) fuel hf w
      obtain ⟨c1, c2, l, c3, _⟩ := RunBench_calibrated clk fuel b k w w1 h1
      have hw : wrap32 (k * 2) = 2 * k := by
        rw [wrap32_id _ (by omega) (by omega)]
        ring
      obtain ⟨w2, e2, s2, er2, o2⟩ := ih i0 (2 * k) w1 (by omega) (by omega)
        (by rw [pow_succ] at hlt; linarith)
      refine ⟨w2, ?_, ?_, by rw [er2, c2], ?_⟩
      · simp only [sizeLoop, hc, if_true, h1, res_bind_ok, hw]
        exact e2
      · simp only [doublings, hc, if_true]
        rw [s2, c1, List.append_assoc]
        rfl
      · simp only [doublings, hc, if_true, List.length_cons]
        rw [o2, c3, List.length_append, List.length_singleton]
        omega
    · exact ⟨w, by simp only [sizeLoop, hc, if_false], by simp [doublings, hc], rfl,
        by simp [doublings, hc]⟩

/-- The size loop of `main` for a thread count other than 1, when the upper
bound of the sweep is below `2^30`: the loop exits and nothing has happened. -/
theorem sizeLoop_skip (clk : Clock) (b : Benchmark) (fuel : Nat) (j : Int) (hj : j ≠ 1)
    (hhi : b.hi < 1073741824) :
    ∀ (m i : Nat) (k : Int) (w : World), m < i → 1 ≤ k → max b.hi 1 < k * 2 ^ m →
      sizeLoop clk fuel b j i k w = .ok w := by
  intro m
  induction m with
  | zero =>
    intro i k w hi hk hlt
    obtain ⟨i0, rfl⟩ : ∃ i0, i = i0 + 1 := ⟨i - 1, by omega⟩
    have hc : ¬ k ≤ max b.hi 1 := by simp only [pow_zero, mul_one] at hlt; omega
    simp only [sizeLoop, hc, if_false]
  | succ m ih =>
    intro i k w hi hk hlt
    obtain ⟨i0, rfl⟩ : ∃ i0, i = i0 + 1 := ⟨i - 1, by omega⟩
    by_cases hc : k ≤ max b.hi 1
    · have hw : wrap32 (k * 2) = 2 * k := by
        rw [wrap32_id _ (by omega) (by omega)]
        ring
      simp only [sizeLoop, hc, if_true, RunBench_other_thread clk fuel b j k w hj, res_bind_ok,
        hw]
      exact ih i0 (2 * k) w (by omega) (by omega) (by rw [pow_succ] at hlt; linarith)
    · simp only [sizeLoop, hc, if_false]

/-- The thread loop of `main` from thread count `j`, when no loop counter
overflows (`hi < 2^30`, `threadhi < 2^31 - 1`) and every calibration returns:
the loop exits, and the calibrations run are those of the size sweep when the
count 1 is still to come (`j <= 1 <= threadhi`), none otherwise. -/
theorem threadLoop_sweep (clk : Clock) (b : Benchmark) (fuel : Nat)
    (hf : 1000000000 ≤ fuel) (hbody : ∀ n siz, bodyCalls b n siz ≠ none)
    (hpos : ∀ n siz v0 v, runN clk b n siz v0 = .ok v → 0 ≤ v.ns)
    (hhi : b.hi < 1073741824) (hth : b.threadhi < 2147483647) :
    ∀ (m i : Nat) (j : Int) (w : World), m < i → -2147483648 ≤ j →
      (b.threadhi - j + 1).toNat ≤ m →
      ∃ w1, threadLoop clk fuel b i j w = .ok w1 ∧
        calibratedSizes w1 = calibratedSizes w ++
          (if j ≤ 1 ∧ 1 ≤ b.threadhi then sweepSizes (max b.lo 1) (max b.hi 1) else []) ∧
        w1.err = w.err ∧
        w1.out.length = w.out.length +
          (if j ≤ 1 ∧ 1 ≤ b.threadhi then sweepSizes (max b.lo 1) (max b.hi 1) else []).length := by
  intro m
  induction m with
  | zero =>
    intro i j w hi hj hm
    obtain ⟨i0, rfl⟩ : ∃ i0, i = i0 + 1 := ⟨i - 1, by omega⟩
    have hc : ¬ j ≤ b.threadhi := by omega
    have hn : ¬ (j ≤ 1 ∧ 1 ≤ b.threadhi) := by omega
    exact ⟨w, by simp only [threadLoop, hc, if_false], by simp [hn], rfl, by simp [hn]⟩
  | succ m ih =>
    intro i j w hi hj hm
    obtain ⟨i0, rfl⟩ : ∃ i0, i = i0 + 1 := ⟨i - 1, by omega⟩
    by_cases hc : j ≤ b.threadhi
    · have hw : wrap32 (j + 1) = j + 1 := wrap32_id _ (by omega) (by omega)
      have hk : (1 : Int) ≤ max b.lo 1 := le_max_right _ _
      have hlt : max b.hi 1 < max b.lo 1 * 2 ^ 30 := by
        have : max b.hi 1 < 1073741824 := by omega
        norm_num
        omega
      by_cases hj1 : j = 1
      · subst hj1
        obtain ⟨w1, e1, s1, er1, o1⟩ := sizeLoop_sweep clk b fuel hf hbody hpos hhi 30 fuel
          (max b.lo 1) w (by omega) hk hlt
        rw [doublings_sweepSizes fuel _ _ hk (by omega) (by omega)] at s1 o1
        obtain ⟨w2, e2, s2, er2, o2⟩ := ih i0 (1 + 1) w1 (by omega) (by omega) (by omega)
        have hn : ¬ ((1 : Int) + 1 ≤ 1 ∧ 1 ≤ b.threadhi) := by omega
        have hy : ((1 : Int) ≤ 1 ∧ 1 ≤ b.threadhi) := ⟨le_refl _, hc⟩
        rw [if_neg hn, List.append_nil] at s2
        rw [if_neg hn] at o2
        refine ⟨w2, ?_, ?_, by rw [er2, er1], ?_⟩
        · simp only [threadLoop, hc, if_true, e1, res_bind_ok, hw]
          exact e2
        · rw [if_pos hy, s2, s1]
        · rw [if_pos hy, o2, o1]
          simp
      · have e1 := sizeLoop_skip clk b fuel j hj1 hhi 30 fuel (max b.lo 1) w (by omega) hk hlt
        obtain ⟨w2, e2, s2, er2, o2⟩ := ih i0 (j + 1) w (by omega) (by omega) (by omega)
        have hiff : (j + 1 ≤ 1 ∧ 1 ≤ b.threadhi) ↔ (j ≤ 1 ∧ 1 ≤ b.threadhi) := by
          constructor <;> intro h <;> constructor <;> omega
        simp only [hiff] at s2 o2
        refine ⟨w2, ?_, s2, er2, o2⟩
        simp only [threadLoop, hc, if_true, e1, res_bind_ok, hw]
        exact e2
    · have hn : ¬ (j ≤ 1 ∧ 1 ≤ b.threadhi) := by omega
      exact ⟨w, by simp only [threadLoop, hc, if_false], by simp [hn], rfl, by simp [hn]⟩

/-- The sweep of `main` for one descriptor when no loop counter overflows
(`hi < 2^30`, `threadhi < 2^31 - 1`), the descriptor has a body and no trial
has a negative elapsed time: with enough fuel the sweep ends, and the
calibrations it has run are those for the sizes `lo * 2^i <= hi`, in
increasing order, when `threadlo <= 1 <= threadhi`, and none otherwise; one
line is printed per calibration. -/
theorem sweep_in_range (clk : Clock) (b : Benchmark)
    (hbody : ∀ n siz, bodyCalls b n siz ≠ none)
    (hpos : ∀ n siz v0 v, runN clk b n siz v0 = .ok v → 0 ≤ v.ns)
    (hhi : b.hi < 1073741824) (hlo : -2147483648 ≤ b.threadlo)
    (hth : b.threadhi < 2147483647) (w : World) :
    ∃ fuel0 : Nat, ∀ fuel : Nat, fuel0 ≤ fuel →
      ∃ w1, threadLoop clk fuel b fuel b.threadlo w = .ok w1 ∧
        calibratedSizes w1 = calibratedSizes w ++
          (if b.threadlo ≤ 1 ∧ 1 ≤ b.threadhi then sweepSizes (max b.lo 1) (max b.hi 1)
           else []) ∧
        w1.err = w.err ∧
        w1.out.length = w.out.length +
          (if b.threadlo ≤ 1 ∧ 1 ≤ b.threadhi then sweepSizes (max b.lo 1) (max b.hi 1)
           else []).length := by
  refine ⟨1000000000 + (b.threadhi - b.threadlo + 1).toNat + 1, fun fuel hfu => ?_⟩
  exact threadLoop_sweep clk b fuel (by omega) hbody hpos hhi hth
    (b.threadhi - b.threadlo + 1).toNat fuel b.threadlo w (by omega) hlo (le_refl _)

/-- An instance of `sweep_in_range`: sizes `3 .. 20`, threads `0 .. 2`, on the
clock on which no time passes.  The sweep ends after the calibrations for the
sizes `3`, `6` and `12`, with three lines printed. -/
theorem sweep_in_range_small :
    ∃ fuel0 : Nat, ∀ fuel : Nat, fuel0 ≤ fuel →
      ∃ w1, threadLoop stillClock fuel smallBench fuel smallBench.threadlo World.init = .ok w1 ∧
        calibratedSizes w1 = [3, 6, 12] ∧ w1.out.length = 3 := by
  obtain ⟨fuel0, h⟩ := sweep_in_range stillClock smallBench
    (fun n siz => by simp [bodyCalls, smallBench])
    (fun n siz v0 v hv => by
      have := still_ns_zero smallBench n siz v0 v [] rfl (by intro c hc; cases hc) hv
      omega)
    (by decide) (by decide) (by decide) World.init
  refine ⟨fuel0, fun fuel hf => ?_⟩
  obtain ⟨w1, h1, h2, _, h4⟩ := h fuel hf
  have hs : sweepSizes (max smallBench.lo 1) (max smallBench.hi 1) = [3, 6, 12] := by decide
  have hc : smallBench.threadlo ≤ 1 ∧ 1 ≤ smallBench.threadhi := by decide
  rw [if_pos hc, hs] at h2 h4
  exact ⟨w1, h1, by simpa [calibratedSizes, World.init] using h2,
    by simpa [World.init] using h4⟩

/-! ## C12: thread ranges at registration -/

/-- C12, as stated, fails: a descriptor registered with the thread range
`5 .. 2` is stored with the thread range `5 .. 2`. -/
theorem reversed_threads_survive :
    ∃ s, Register [] reversedBench = some [s] ∧ s.threadlo = 5 ∧ s.threadhi = 2 ∧
      s.threadhi < s.threadlo :=
  ⟨clampRange reversedBench, rfl, rfl, rfl, by decide⟩

/-- C12, amended: `Benchmark::Register` stores `threadlo` and `threadhi` as
they are, so a range with `threadhi < threadlo` survives registration; for
such a descriptor the thread loop of `main` exits at once, without a
calibration and without an error. -/
theorem register_keeps_threads (benchmarks : List Benchmark) (b : Benchmark)
    (hroom : benchmarks.length < maxBenchmarks) :
    ∃ s, Register benchmarks b = some (benchmarks ++ [s]) ∧
      s.threadlo = b.threadlo ∧ s.threadhi = b.threadhi ∧
      (b.threadhi < b.threadlo →
        s.threadhi < s.threadlo ∧
        ∀ (clk : Clock) (fuel i : Nat) (w : World),
          threadLoop clk fuel s (i + 1) s.threadlo w = .ok w) := by
  obtain ⟨_, _, _, _, _, e6, e7⟩ := clampRange_fields b
  refine ⟨clampRange b, by simp [Register, hroom], e6, e7, fun h => ⟨by rw [e6, e7]; exact h, ?_⟩⟩
  intro clk fuel i w
  have hc : ¬ (clampRange b).threadlo ≤ (clampRange b).threadhi := by rw [e6, e7]; omega
  simp only [threadLoop, hc, if_false]

/-- An instance of `register_keeps_threads`: the thread range `5 .. 2`. -/
theorem register_keeps_threads_witness :
    reversedBench.threadhi < reversedBench.threadlo ∧
      ∃ s, Register [] reversedBench = some [s] ∧ s.threadhi < s.threadlo ∧
        threadLoop stillClock 3 s 1 s.threadlo World.init = .ok World.init := by
  obtain ⟨s, h1, _, _, h4⟩ := register_keeps_threads [] reversedBench (by decide)
  obtain ⟨h5, h6⟩ := h4 (by decide)
  exact ⟨by decide, s, by simpa using h1, h5, h6 stillClock 3 0 World.init⟩

/-! ## C14: selection -/

theorem matchName_iff (pm : String → String → Bool) (name : String) (argv : List String) :
    matchName pm name argv = true ↔
      (argv.length = 1 ∨ ∃ pat ∈ argv.drop 1, pm name pat = true) := by
  unfold matchName
  by_cases h : argv.length = 1
  · simp [h]
  · simp [h]

/-- The loop of `main` over the registry is the sequence of the sweeps of the
selected descriptors, in registration order. -/
theorem benchLoop_filter (clk : Clock) (fuel : Nat) (pm : String → String → Bool)
    (argv : List String) :
    ∀ (bs : List Benchmark) (w : World),
      benchLoop clk fuel pm argv bs w =
        sweepEach clk fuel (bs.filter (fun b => matchName pm b.name argv)) w := by
  intro bs
  induction bs with
  | nil => intro w; rfl
  | cons b rest ih =>
    intro w
    by_cases hm : matchName pm b.name argv = true
    · simp only [benchLoop, hm, if_true, List.filter_cons_of_pos, sweepEach]
      congr 1
      funext w1
      exact ih w1
    · simp only [benchLoop, hm, if_false, Bool.false_eq_true]
      rw [List.filter_cons_of_neg (by simpa using hm)]
      exact ih w

/-- C14: `match` selects a name exactly when `argc = 1` or one of
`argv[1], ..., argv[argc-1]` partially matches it (`pm` is the partial-match
test); `argv[0]` plays no part; and what `main` does is to sweep the selected
descriptors, and only them, in registration order. -/
theorem selection (clk : Clock) (fuel : Nat) (pm : String → String → Bool)
    (name : String) (argv : List String) (bs : List Benchmark) (w : World) :
    (matchName pm name argv = true ↔
        (argv.length = 1 ∨
          ∃ i pat, 1 ≤ i ∧ i < argv.length ∧ argv[i]? = some pat ∧ pm name pat = true)) ∧
      (∀ (a0 a1 : String) (rest : List String),
        matchName pm name (a0 :: rest) = matchName pm name (a1 :: rest)) ∧
      main clk fuel pm argv bs w =
        (sweepEach clk fuel (bs.filter (fun b => matchName pm b.name argv)) w).bind
          (fun w1 => .exit 0 w1) := by
  refine ⟨?_, fun a0 a1 rest => by simp [matchName], by rw [main, benchLoop_filter]⟩
  rw [matchName_iff]
  constructor
  · rintro (h | ⟨pat, hp, hm⟩)
    · exact Or.inl h
    · right
      obtain ⟨k, hk, rfl⟩ := List.getElem_of_mem hp
      rw [List.length_drop] at hk
      refine ⟨1 + k, _, by omega, by omega, ?_, hm⟩
      rw [List.getElem_drop, List.getElem?_eq_getElem (by omega)]
  · rintro (h | ⟨i, pat, h1, h2, h3, hm⟩)
    · exact Or.inl h
    · right
      refine ⟨pat, ?_, hm⟩
      rw [List.getElem?_eq_getElem h2] at h3
      cases h3
      rw [List.mem_iff_getElem]
      refine ⟨i - 1, by rw [List.length_drop]; omega, ?_⟩
      rw [List.getElem_drop]
      congr 1
      omega

/-! ## C13: the size suffix -/

theorem render_ne_empty (pre : String) (q : Int) (post : String) :
    "/" ++ pre ++ toString q ++ post ≠ "" := by
  intro h
  have := congrArg String.length h
  simp only [String.length_append] at this
  have h0 : "/".length = 1 := by decide
  have h1 : "".length = 0 := by decide
  omega

/-- C13: for `siz >= 1` the reported name carries a size suffix exactly when
the descriptor has `fnr` or `lo != hi`; the suffix is then `/`, the quotient
`siz / 2^20` and `M` when `siz >= 2^20`, `/`, the quotient `siz / 2^10` and
`K` when `2^10 <= siz < 2^20`, and `/` and `siz` otherwise.  With
`lo = hi = 1024` and no `fnr` there is no suffix; with `lo = 1`,
`hi = 2097152` the suffix at size `2097152` is `/2M`. -/
theorem size_suffix_format (b : Benchmark) (siz : Int) (h1 : 1 ≤ siz) :
    ((sizeSuffix b siz).render ≠ "" ↔ (b.fnr ≠ none ∨ b.lo ≠ b.hi)) ∧
      ((b.fnr ≠ none ∨ b.lo ≠ b.hi) →
        (1048576 ≤ siz →
          (sizeSuffix b siz).render = "/" ++ toString (siz / 1048576) ++ "M") ∧
        (1024 ≤ siz → siz < 1048576 →
          (sizeSuffix b siz).render = "/" ++ toString (siz / 1024) ++ "K") ∧
        (siz < 1024 → (sizeSuffix b siz).render = "/" ++ toString siz)) ∧
      (b.fnr = none → b.lo = 1024 → b.hi = 1024 → (sizeSuffix b 1024).render = "") ∧
      (b.lo = 1 → b.hi = 2097152 → (sizeSuffix b 2097152).render = "/2M") := by
  have hsome : (b.fnr.isSome = true ∨ b.lo ≠ b.hi) ↔ (b.fnr ≠ none ∨ b.lo ≠ b.hi) := by
    rw [Option.isSome_iff_ne_none]
  have hM : Int.tdiv siz 1048576 = siz / 1048576 := Int.tdiv_eq_ediv (by omega) (by norm_num)
  have hK : Int.tdiv siz 1024 = siz / 1024 := Int.tdiv_eq_ediv (by omega) (by norm_num)
  refine ⟨?_, ?_, ?_, ?_⟩
  · by_cases hp : b.fnr.isSome = true ∨ b.lo ≠ b.hi
    · have hp2 := hsome.mp hp
      simp only [sizeSuffix, hp, if_true, hp2, iff_true]
      split_ifs
      · simpa [Suffix.render] using render_ne_empty "" (Int.tdiv siz 1048576) "M"
      · simpa [Suffix.render] using render_ne_empty "" (Int.tdiv siz 1024) "K"
      · simpa [Suffix.render] using render_ne_empty "" siz ""
    · have hp2 : ¬ (b.fnr ≠ none ∨ b.lo ≠ b.hi) := fun h => hp (hsome.mpr h)
      simp only [sizeSuffix, hp, if_false, hp2, iff_false, not_not]
      rfl
  · intro hp2
    have hp := hsome.mpr hp2
    refine ⟨fun h => ?_, fun h h' => ?_, fun h => ?_⟩
    · have hc : siz ≥ 1048576 := h
      simp only [sizeSuffix, hp, if_true, hc, Suffix.render, hM]
    · have hc : ¬ siz ≥ 1048576 := by omega
      have hc2 : siz ≥ 1024 := h
      simp only [sizeSuffix, hp, if_true, hc, if_false, hc2, Suffix.render, hK]
    · have hc : ¬ siz ≥ 1048576 := by omega
      have hc2 : ¬ siz ≥ 1024 := by omega
      simp only [sizeSuffix, hp, if_true, hc, if_false, hc2, Suffix.render]
  · intro hf hlo hhi
    have hp : ¬ (b.fnr.isSome = true ∨ b.lo ≠ b.hi) := by
      rw [hf, hlo, hhi]
      simp
    simp only [sizeSuffix, hp, if_false]
    rfl
  · intro hlo hhi
    have hp : b.fnr.isSome = true ∨ b.lo ≠ b.hi := Or.inr (by rw [hlo, hhi]; decide)
    simp only [sizeSuffix, hp, if_true]
    decide

/-- An instance of `size_suffix_format`: the size `3072` of a descriptor with
the range `1 .. 2097152` is reported as `/3K`. -/
theorem size_suffix_format_witness :
    (1 : Int) ≤ 3072 ∧ (sizeSuffix rangeBench 3072).render = "/3K" ∧
      (sizeSuffix fixedBench 1024).render = "" ∧
      (sizeSuffix rangeBench 2097152).render = "/2M" := by
  obtain ⟨_, h2, h3, h4⟩ := size_suffix_format rangeBench 3072 (by decide)
  obtain ⟨_, _, g3, _⟩ := size_suffix_format fixedBench 3072 (by decide)
  refine ⟨by decide, ?_, g3 rfl rfl rfl, h4 rfl rfl⟩
  rw [((h2 (Or.inr (by decide))).2.1 (by decide) (by decide))]
  decide

/-! ## C15: the growth of the count in one pass -/

/-- C15, as stated, fails: after a trial with `last = 1` and `ns = 999999999`
the estimate is `1`, `min(est + est/2, 100*last)` is `1`, and the count chosen
before rounding is `last + 1 = 2`, which is above that minimum. -/
theorem growth_above_min :
    estimate (wrap64 (Int.tdiv 999999999 1)) = 1 ∧ nextCount 1 1 = 2 ∧
      min ((1 : Int) + Int.tdiv 1 2) (100 * 1) = 1 ∧
      ¬ nextCount 1 1 ≤ min ((1 : Int) + Int.tdiv 1 2) (100 * 1) := by
  refine ⟨by decide, by decide, by decide, by decide⟩

/-- C15, amended: for `1 <= last < 10^9` and a quotient `ns/last` on which the
estimate is defined, the count chosen before rounding is at least `last + 1`
and at most `max(last + 1, min(est + est/2, 100*last))`; it is at most
`min(est + est/2, 100*last)` when that minimum, as `RunBench` computes it in
`int`, is at least `last + 1`, and it is `last + 1` otherwise. -/
theorem growth_bound (last ns : Int) (h1 : 1 ≤ last) (h2 : last < 1000000000)
    (h4 : ¬ zeroDivisor (wrap64 (Int.tdiv ns last))) :
    last + 1 ≤ nextCount last (estimate (wrap64 (Int.tdiv ns last))) ∧
      nextCount last (estimate (wrap64 (Int.tdiv ns last))) ≤
        max (last + 1)
          (min (estimate (wrap64 (Int.tdiv ns last)) +
              Int.tdiv (estimate (wrap64 (Int.tdiv ns last))) 2) (100 * last)) ∧
      (last + 1 ≤ min (estimate (wrap64 (Int.tdiv ns last)) +
              Int.tdiv (estimate (wrap64 (Int.tdiv ns last))) 2) (wrap32 (100 * last)) →
        nextCount last (estimate (wrap64 (Int.tdiv ns last))) ≤
          min (estimate (wrap64 (Int.tdiv ns last)) +
              Int.tdiv (estimate (wrap64 (Int.tdiv ns last))) 2) (100 * last)) ∧
      (min (estimate (wrap64 (Int.tdiv ns last)) +
              Int.tdiv (estimate (wrap64 (Int.tdiv ns last))) 2) (wrap32 (100 * last))
          < last + 1 →
        nextCount last (estimate (wrap64 (Int.tdiv ns last))) = last + 1) := by
  obtain ⟨b1, b2⟩ := estimate_bounds _ h4
  generalize estimate (wrap64 (Int.tdiv ns last)) = est at b1 b2 ⊢
  have ht := tdiv_two est
  have hw : wrap32 (100 * last) ≤ 100 * last := by unfold wrap32; omega
  have e1 : wrap32 (last + 1) = last + 1 := wrap32_id _ (by omega) (by omega)
  have e3 : wrap32 (est + Int.tdiv est 2) = est + Int.tdiv est 2 := by
    by_cases hs : 0 ≤ est
    · have := ht.1 hs
      exact wrap32_id _ (by omega) (by omega)
    · have := ht.2 (by omega)
      exact wrap32_id _ (by omega) (by omega)
  unfold nextCount
  rw [e1, e3]
  refine ⟨by omega, by omega, fun h => by omega, fun h => by omega⟩

/-- An instance of `growth_bound`: `last = 100`, `ns = 5000` (50 ns per
iteration): the estimate is `20000000` and the count chosen is `10000`. -/
theorem growth_bound_witness :
    ¬ zeroDivisor (wrap64 (Int.tdiv 5000 100)) ∧
      estimate (wrap64 (Int.tdiv 5000 100)) = 20000000 ∧
      nextCount 100 (estimate (wrap64 (Int.tdiv 5000 100))) = 10000 ∧
      (100 : Int) + 1 ≤ nextCount 100 (estimate (wrap64 (Int.tdiv 5000 100))) :=
  ⟨by decide, by decide, by decide,
    (growth_bound 100 5000 (by decide) (by decide) (by decide)).1⟩

/-! ## C16: nothing persists between trials -/

/-- The result of `runN` does not depend on the accumulator it finds. -/
theorem runN_reset (clk : Clock) (b : Benchmark) (n siz : Int) (w : World)
    (bytes1 ns1 t1 items1 : Int) :
    runN clk b n siz { w with bytes := bytes1, ns := ns1, t0 := t1, items := items1 }
      = runN clk b n siz w := rfl

/-- C16: for a descriptor with a body, `runN` enters the body with `bytes`,
`items` and `ns` at `0` and `t0` at the start reading, and its result is the
same whatever `bytes`, `ns`, `t0` and `items` were before the call. -/
theorem trials_do_not_persist (clk : Clock) (b : Benchmark) (n siz : Int) (w : World)
    (cs : List Call) (hb : bodyCalls b n siz = some cs) (bytes1 ns1 t1 items1 : Int) :
    (trialStart clk b n siz w).bytes = 0 ∧ (trialStart clk b n siz w).items = 0 ∧
      (trialStart clk b n siz w).ns = 0 ∧ (trialStart clk b n siz w).t0 = clk w.tick ∧
      runN clk b n siz w = .ok (trialEnd clk (runBody clk cs (trialStart clk b n siz w))) ∧
      runN clk b n siz { w with bytes := bytes1, ns := ns1, t0 := t1, items := items1 }
        = runN clk b n siz w :=
  ⟨rfl, rfl, rfl, rfl, runN_some clk b n siz w cs hb, runN_reset clk b n siz w _ _ _ _⟩

/-- An instance of `trials_do_not_persist`: a trial started in a state with
`bytes = 4096`, `ns = 123456789`, `t0 = 55`, `items = 17` ends as the same
trial started from zeroes: `bytes = 24`, `items = 0`, `ns = 10`, `t0 = 0`. -/
theorem trials_do_not_persist_witness :
    runN tenClock countingBench 3 1 usedWorld = runN tenClock countingBench 3 1 World.init ∧
      ∃ v, runN tenClock countingBench 3 1 usedWorld = .ok v ∧
        v.bytes = 24 ∧ v.items = 0 ∧ v.ns = 10 ∧ v.t0 = 0 := by
  obtain ⟨_, _, _, _, h5, h6⟩ := trials_do_not_persist tenClock countingBench 3 1 World.init
    [.setBytes 24, .stopTiming] rfl 4096 123456789 55 17
  refine ⟨h6, _, h6.trans h5, by decide, by decide, by decide, by decide⟩

/-! ## C17: the exact value of `round` -/

/-- The value `round` returns from the power of ten `10^k` at which its loop
stops is the least of `2*10^k`, `5*10^k`, `10*10^k`, ... above `n`, or `n`
itself when `n = 10^(k+1)`. -/
theorem round_value_least (n : Int) (k : Nat) (hlow : k = 0 ∨ 10 ^ k < n)
    (hup : n ≤ 10 ^ (k + 1)) (h1 : 1 ≤ n) (m : Int) (hm : isRoundValue m) (hnm : n < m) :
    (if n < 2 * 10 ^ k then 2 * 10 ^ k
      else if n < 5 * 10 ^ k then 5 * 10 ^ k else (10 * 10 ^ k : Int)) ≤ m := by
  obtain ⟨j, hj⟩ := hm
  have hP : (0 : Int) < 10 ^ k := by positivity
  rw [pow_succ] at hup
  rcases Nat.lt_trichotomy j k with hjk | hjk | hjk
  · exfalso
    have hk0 : k ≠ 0 := by omega
    have hlt : (10 : Int) ^ k < n := by
      rcases hlow with h | h
      · exact absurd h hk0
      · exact h
    have hle : (10 : Int) ^ (j + 1) ≤ 10 ^ k := pow_le_pow_right₀ (by norm_num) (by omega)
    rw [pow_succ] at hle
    have hQ : (0 : Int) < 10 ^ j := by positivity
    omega
  · subst hjk
    split_ifs <;> omega
  · have hle : (10 : Int) ^ (k + 1) ≤ 10 ^ j := pow_le_pow_right₀ (by norm_num) (by omega)
    rw [pow_succ] at hle
    split_ifs <;> omega

/-- C17: for `1 <= n <= 10^9`, `round(n)` is at least `n` and is one of
`2*10^k`, `5*10^k`, `10*10^k`; it is `n` exactly when `n` is a power of ten
with `n >= 10`; and no value of that form that is above `n` is below
`round(n)`, so that for every other `n` it is the smallest such value above
`n`.  In particular `round(20) = 50`. -/
theorem round_exact (n : Int) (h1 : 1 ≤ n) (h2 : n ≤ 1000000000) :
    ∃ v, round n = some v ∧ n ≤ v ∧ isRoundValue v ∧
      (v = n ↔ ∃ j : Nat, 1 ≤ j ∧ n = 10 ^ j) ∧
      (∀ m, isRoundValue m → n < m → v ≤ m) ∧
      ((¬ ∃ j : Nat, 1 ≤ j ∧ n = 10 ^ j) → n < v) ∧
      round 20 = some 50 := by
  obtain ⟨k, hk, hlow, hup, hr⟩ := round_decade n h1 h2
  have hP : (0 : Int) < 10 ^ k := by positivity
  have hup2 := hup
  rw [pow_succ] at hup2
  have hiff : (if n < 2 * 10 ^ k then 2 * 10 ^ k
      else if n < 5 * 10 ^ k then 5 * 10 ^ k else (10 * 10 ^ k : Int)) = n ↔
      ∃ j : Nat, 1 ≤ j ∧ n = 10 ^ j := by
    constructor
    · intro hv
      refine ⟨k + 1, by omega, ?_⟩
      rw [pow_succ]
      split_ifs at hv <;> omega
    · rintro ⟨j, hj1, hj⟩
      have hjk : j = k + 1 := by
        rcases Nat.lt_trichotomy j (k + 1) with h | h | h
        · exfalso
          have hle : (10 : Int) ^ j ≤ 10 ^ k := pow_le_pow_right₀ (by norm_num) (by omega)
          rcases hlow with h0 | h0
          · omega
          · omega
        · exact h
        · exfalso
          have hle : (10 : Int) ^ (k + 1 + 1) ≤ 10 ^ j :=
            pow_le_pow_right₀ (by norm_num) (by omega)
          rw [pow_succ, pow_succ] at hle
          omega
      subst hjk
      rw [pow_succ] at hj
      split_ifs <;> omega
  refine ⟨_, hr, ?_, ⟨k, ?_⟩, hiff, ?_, ?_, by decide⟩
  · split_ifs <;> omega
  · split_ifs
    · exact Or.inl rfl
    · exact Or.inr (Or.inl rfl)
    · exact Or.inr (Or.inr rfl)
  · intro m hm hnm
    exact round_value_least n k hlow hup h1 m hm hnm
  · intro hnot
    have hne := fun h => hnot (hiff.mp h)
    have hge : n ≤ (if n < 2 * 10 ^ k then 2 * 10 ^ k
      else if n < 5 * 10 ^ k then 5 * 10 ^ k else (10 * 10 ^ k : Int)) := by
      split_ifs <;> omega
    exact lt_of_le_of_ne hge (fun h => hne h.symm)

/-- An instance of `round_exact`: `round(20) = 50`, the smallest of the values
`2*10^k`, `5*10^k`, `10*10^k` above `20`, and `round(1000) = 1000`. -/
theorem round_exact_witness :
    (1 : Int) ≤ 20 ∧ (20 : Int) ≤ 1000000000 ∧
      (∃ v, round 20 = some v ∧ 20 < v ∧ isRoundValue v ∧
        ∀ m, isRoundValue m → 20 < m → v ≤ m) ∧
      round 1000 = some 1000 := by
  obtain ⟨v, hv, _, hr, _, hmin, hlt, _⟩ := round_exact 20 (by decide) (by decide)
  refine ⟨by decide, by decide, ⟨v, hv, ?_, hr, hmin⟩, by decide⟩
  have h50 : round 20 = some 50 := by decide
  rw [h50] at hv
  cases hv
  decide

/-! ## C19: no division by zero with non-negative elapsed times -/

/-- When no trial has a negative elapsed time the loop of `RunBench`, entered
with a count `n >= 1` after a trial, does not end in a division by zero,
whatever the fuel. -/
theorem trialLoop_no_division (clk : Clock) (b : Benchmark) (siz : Int)
    (hpos : ∀ n v0 v, runN clk b n siz v0 = .ok v → 0 ≤ v.ns) :
    ∀ (fuel : Nat) (n : Int) (w v : World), 1 ≤ n → 0 ≤ w.ns →
      trialLoop clk b siz fuel n w ≠ .divByZero v := by
  intro fuel
  induction fuel with
  | zero => intro n w v _ _ h; simp [trialLoop] at h
  | succ f ih =>
    intro n w v hn hw h
    by_cases hc : w.ns < 1000000000 ∧ n < 1000000000
    · rcases trialLoop_step clk b siz f n w hc hn with ⟨hz, _⟩ | ⟨_, n1, _, hlo, _, e⟩
      · exact nonneg_not_zeroDivisor w.ns n hw hc.1 hn hz
      · rw [e] at h
        rcases runN_ok_or_exit clk b n1 siz w with ⟨v1, hv1⟩ | ⟨v1, hv1⟩
        · rw [hv1, res_bind_ok] at h
          exact ih n1 v1 v (by omega) (hpos n1 w v1 hv1) h
        · rw [hv1] at h
          cases h
    · rw [trialLoop_exit clk b siz f n w hc] at h
      cases h

/-- C19: when no trial of the descriptor has a negative elapsed time,
`RunBench` never divides by zero, whatever the thread count, the size, the
state and the fuel; in particular a quotient `ns/n` with `0 <= ns < 10^9` and
`n >= 1` that is not zero is not zero as an `int` either. -/
theorem no_division_by_zero (clk : Clock) (b : Benchmark) (siz : Int)
    (hpos : ∀ n v0 v, runN clk b n siz v0 = .ok v → 0 ≤ v.ns)
    (fuel : Nat) (nthread : Int) (w : World) :
    (∀ v, RunBench clk fuel b nthread siz w ≠ .divByZero v) ∧
      (∀ ns n : Int, 0 ≤ ns → ns < 1000000000 → 1 ≤ n →
        ¬ zeroDivisor (wrap64 (Int.tdiv ns n))) := by
  refine ⟨fun v h => ?_, fun ns n h0 h1 h2 => nonneg_not_zeroDivisor ns n h0 h1 h2⟩
  by_cases hj : nthread = 1
  · subst hj
    simp only [RunBench, ne_eq, not_true_eq_false, if_false] at h
    rcases runN_ok_or_exit clk b 1 siz w with ⟨v1, hv1⟩ | ⟨v1, hv1⟩
    · rw [hv1, res_bind_ok] at h
      cases hl : trialLoop clk b siz fuel 1 v1 with
      | ok r =>
        obtain ⟨n1, w1⟩ := r
        obtain ⟨p1, _⟩ := trialLoop_trials clk b siz fuel 1 v1 n1 w1 (by decide) hl
        have hn0 : n1 ≠ 0 := by omega
        rw [hl, res_bind_ok] at h
        simp only [report, hn0, if_false] at h
        cases h
      | exit c v2 => rw [hl] at h; cases h
      | divByZero v2 =>
        exact trialLoop_no_division clk b siz hpos fuel 1 v1 v2 (by decide)
          (hpos 1 w v1 hv1) hl
      | hang v2 => rw [hl] at h; cases h
      | fuel v2 => rw [hl] at h; cases h
    · rw [hv1] at h
      cases h
  · rw [RunBench_other_thread clk fuel b nthread siz w hj] at h
    cases h

/-- On the clock that always reads `1`, no trial of the body that makes no
call has a negative elapsed time. -/
theorem still_nonneg (siz : Int) :
    ∀ n v0 v, runN stillClock idleBench n siz v0 = .ok v → 0 ≤ v.ns := by
  intro n v0 v hv
  have := still_ns_zero idleBench n siz v0 v [] rfl (by intro c hc; cases hc) hv
  omega

/-- An instance of `no_division_by_zero`: the body that makes no call, on the
clock that always reads `1`. -/
theorem no_division_by_zero_witness :
    (∀ n v0 v, runN stillClock idleBench n 1 v0 = .ok v → 0 ≤ v.ns) ∧
      ∀ v, RunBench stillClock 10 idleBench 1 1 World.init ≠ .divByZero v :=
  ⟨still_nonneg 1, (no_division_by_zero stillClock idleBench 1 (still_nonneg 1) 10 1
    World.init).1⟩

/-! ## C20: distinct suffixes within a sweep -/

/-- A result of `round` on `1 .. 1874919424` is one of `2*10^k`, `5*10^k`,
`10*10^k`, or it is the wrapped value `1874919424`. -/
theorem round_grid (x v : Int) (h1 : 1 ≤ x) (h2 : x ≤ 1874919424) (hv : round x = some v) :
    isRoundValue v ∨ v = 1874919424 := by
  by_cases ha : x ≤ 1000000000
  · obtain ⟨k, _, _, _, hr⟩ := round_decade x h1 ha
    rw [hr] at hv
    cases hv
    left
    refine ⟨k, ?_⟩
    split_ifs
    · exact Or.inl rfl
    · exact Or.inr (Or.inl rfl)
    · exact Or.inr (Or.inr rfl)
  · by_cases hb : x ≤ 1410065408
    · rw [round_above x (by omega) hb] at hv
      cases hv
      exact Or.inl ⟨9, Or.inl (by norm_num)⟩
    · rw [round_wrapped x (by omega) h2] at hv
      cases hv
      exact Or.inr rfl

/-- The counts of the trials run by the loop of `RunBench`, entered with the
count `n`: each is above the one before, at most `2*10^9`, and one of
`2*10^k`, `5*10^k`, `10*10^k` or the wrapped value `1874919424`. -/
theorem trialLoop_counts (clk : Clock) (b : Benchmark) (siz : Int) :
    ∀ (fuel : Nat) (n : Int) (w : World) (n1 : Int) (w1 : World), 1 ≤ n →
      trialLoop clk b siz fuel n w = .ok (n1, w1) →
      ∃ extra : List Int, trialCounts w1 = trialCounts w ++ extra ∧
        List.Chain (fun a c => a < c) n extra ∧
        (∀ c ∈ extra, c ≤ 2000000000 ∧ (isRoundValue c ∨ c = 1874919424)) ∧
        n1 = (n :: extra).getLast (List.cons_ne_nil _ _) := by
  intro fuel
  induction fuel with
  | zero => intro n w n1 w1 _ h; simp [trialLoop] at h
  | succ f ih =>
    intro n w n1 w1 hn h
    by_cases hc : w.ns < 1000000000 ∧ n < 1000000000
    · rcases trialLoop_step clk b siz f n w hc hn with ⟨_, e⟩ | ⟨hz, n2, hr, hlo, hhi, e⟩
      · rw [e] at h; cases h
      · rw [e] at h
        rcases runN_ok_or_exit clk b n2 siz w with ⟨v, hv⟩ | ⟨v, hv⟩
        · rw [hv, res_bind_ok] at h
          obtain ⟨_, _, t⟩ := runN_frame clk b n2 siz w v hv
          obtain ⟨extra, p1, p2, p3, p4⟩ := ih n2 v n1 w1 (by omega) h
          obtain ⟨b1, b2⟩ := estimate_bounds _ hz
          obtain ⟨c1, c2⟩ := nextCount_bounds n _ hn hc.2 b1 b2
          have hg := round_grid _ n2 (by omega) (by omega) hr
          refine ⟨n2 :: extra, ?_, List.Chain.cons (by omega) p2, ?_, ?_⟩
          · rw [p1]
            simp only [trialCounts, t, List.map_append, List.map_cons, List.map_nil,
              List.append_assoc, List.singleton_append]
          · intro c hcm
            rcases List.mem_cons.mp hcm with rfl | hcm
            · exact ⟨hhi, hg⟩
            · exact p3 c hcm
          · rw [p4, List.getLast_cons (List.cons_ne_nil _ _)]
        · rw [hv] at h
          cases h
    · rw [trialLoop_exit clk b siz f n w hc] at h
      cases h
      refine ⟨[], by simp, List.Chain.nil, ?_, rfl⟩
      intro c hcm
      cases hcm

/-- The counts of the trials of one calibration that returns: the first is
`1`, each later one is above the one before, at most `2*10^9`, and one of
`2*10^k`, `5*10^k`, `10*10^k` or the wrapped value `1874919424`; the count
printed is the last of them. -/
theorem calibration_counts (clk : Clock) (fuel : Nat) (b : Benchmark) (siz : Int)
    (w w1 : World) (h : RunBench clk fuel b 1 siz w = .ok w1) :
    ∃ (extra : List Int) (line : Line), trialCounts w1 = trialCounts w ++ 1 :: extra ∧
      List.Chain (fun a c => a < c) 1 extra ∧
      (∀ c ∈ extra, c ≤ 2000000000 ∧ (isRoundValue c ∨ c = 1874919424)) ∧
      w1.out = w.out ++ [line] ∧
      line.n = (1 :: extra).getLast (List.cons_ne_nil _ _) := by
  simp only [RunBench, ne_eq, not_true_eq_false, if_false] at h
  rcases runN_ok_or_exit clk b 1 siz w with ⟨v, hv⟩ | ⟨v, hv⟩
  · rw [hv, res_bind_ok] at h
    obtain ⟨o, _, t⟩ := runN_frame clk b 1 siz w v hv
    cases hl : trialLoop clk b siz fuel 1 v with
    | ok r =>
      obtain ⟨n1, v1⟩ := r
      obtain ⟨q1, q2, _, _⟩ := trialLoop_trials clk b siz fuel 1 v n1 v1 (by decide) hl
      obtain ⟨extra, p1, p2, p3, p4⟩ := trialLoop_counts clk b siz fuel 1 v n1 v1 (by decide) hl
      rw [hl, res_bind_ok] at h
      have hn0 : n1 ≠ 0 := by omega
      simp only [report, hn0, if_false] at h
      cases h
      refine ⟨extra,
        { name := b.name, suf := sizeSuffix b siz, n := n1,
          nsPerOp := wrap64 (v1.ns.tdiv n1),
          mb := if v1.ns > 0 ∧ v1.bytes > 0 then some (v1.bytes, v1.ns) else none },
        ?_, p2, p3, by simp only [q2, o], p4⟩
      have : trialCounts v = trialCounts w ++ [1] := by
        simp only [trialCounts, t, List.map_append, List.map_cons, List.map_nil]
      show trialCounts v1 = _
      rw [p1, this, List.append_assoc]
      rfl
    | exit c v1 => rw [hl] at h; cases h
    | divByZero v1 => rw [hl] at h; cases h
    | hang v1 => rw [hl] at h; cases h
    | fuel v1 => rw [hl] at h; cases h
  · rw [hv] at h
    cases h

/-- On the clock `burstClock` no trial of the body that makes no call has a
negative elapsed time. -/
theorem burst_nonneg (siz : Int) :
    ∀ n v0 v, runN burstClock idleBench n siz v0 = .ok v → 0 ≤ v.ns := by
  intro n v0 v hv
  obtain ⟨w1, h1, h2, h3⟩ := runN_untimed burstClock idleBench n siz v0 [] rfl
    (by intro c hc; cases hc)
  rw [hv] at h1
  cases h1
  have hne : burstClock v0.tick ≠ 0 := by
    unfold burstClock
    split_ifs <;> decide
  rw [(h2 hne).1]
  unfold burstClock wrap64
  split_ifs <;> omega

/-- C18 fails on the elapsed times `0, 0, 0, 100000000, 0, 0` (none is
negative): the trials run with the counts `1, 100, 10^4, 10^6, 2*10^7,
1874919424`.  The last count, which is also the count printed, is `round` of
`1500000000`, where `base*10` wraps around; it is none of `2*10^k`, `5*10^k`,
`10*10^k`. -/
theorem count_off_grid :
    (∀ n v0 v, runN burstClock idleBench n 1 v0 = .ok v → 0 ≤ v.ns) ∧
      (Res.okState (RunBench burstClock 10 idleBench 1 1 World.init)).map trialCounts
        = some [1, 100, 10000, 1000000, 20000000, 1874919424] ∧
      (Res.okState (RunBench burstClock 10 idleBench 1 1 World.init)).map
        (fun w => w.out.map (fun l => l.n)) = some [1874919424] ∧
      nextCount 20000000 (estimate 0) = 1500000000 ∧
      round 1500000000 = some 1874919424 ∧
      ¬ isRoundValue 1874919424 := by
  refine ⟨burst_nonneg 1, ?_, ?_, by decide, ?_, not_isRoundValue_1874919424⟩
  · set_option maxRecDepth 100000 in decide
  · set_option maxRecDepth 100000 in decide
  · exact round_wrapped 1500000000 (by norm_num) (by norm_num)

/-! ## The exit status of `main` -/

theorem bodyCalls_malformed (b : Benchmark) (h : malformed b) (n siz : Int) :
    bodyCalls b n siz = none := by
  obtain ⟨h1, h2⟩ := h
  unfold bodyCalls
  cases hf : b.fn with
  | some f => rw [hf] at h1; cases h1
  | none =>
    cases hg : b.fnr with
    | some g => rw [hg] at h2; cases h2
    | none => rfl

theorem bodyCalls_wellformed (b : Benchmark) (h : ¬ malformed b) (n siz : Int) :
    bodyCalls b n siz ≠ none := by
  intro hb
  apply h
  unfold bodyCalls at hb
  unfold malformed
  cases hf : b.fn with
  | some f => rw [hf] at hb; cases hb
  | none =>
    rw [hf] at hb
    cases hg : b.fnr with
    | some g => rw [hg] at hb; cases hb
    | none => exact ⟨rfl, rfl⟩

/-- The first call of `RunBench` with thread count 1 for a descriptor with
neither callable form: the diagnostic and `exit(2)`, nothing printed. -/
theorem RunBench_malformed (clk : Clock) (fuel : Nat) (b : Benchmark) (h : malformed b)
    (siz : Int) (w : World) :
    ∃ v, RunBench clk fuel b 1 siz w = .exit 2 v ∧ v.out = w.out ∧
      v.err = w.err ++ [b.name ++ ": missing function\n"] := by
  refine ⟨{ trialStart clk b 1 siz w with err := w.err ++ [b.name ++ ": missing function\n"] },
    ?_, rfl, rfl⟩
  simp only [RunBench, ne_eq, not_true_eq_false, if_false,
    runN_none clk b 1 siz w (bodyCalls_malformed b h 1 siz)]
  rfl

/-- The thread loop of `main` for a descriptor with neither callable form,
when no loop counter overflows: `exit(2)` at the first call of `RunBench` with
thread count 1, if there is one; otherwise the loop exits and nothing has
happened. -/
theorem threadLoop_malformed (clk : Clock) (b : Benchmark) (fuel : Nat) (hf : 31 ≤ fuel)
    (hmal : malformed b) (hhi : b.hi < 1073741824) (hth : b.threadhi < 2147483647) :
    ∀ (m i : Nat) (j : Int) (w : World), m < i → -2147483648 ≤ j →
      (b.threadhi - j + 1).toNat ≤ m →
      ((j ≤ 1 ∧ 1 ≤ b.threadhi ∧ max b.lo 1 ≤ max b.hi 1) →
        ∃ v, threadLoop clk fuel b i j w = .exit 2 v ∧ v.out = w.out ∧
          v.err = w.err ++ [b.name ++ ": missing function\n"]) ∧
      (¬ (j ≤ 1 ∧ 1 ≤ b.threadhi ∧ max b.lo 1 ≤ max b.hi 1) →
        threadLoop clk fuel b i j w = .ok w) := by
  intro m
  induction m with
  | zero =>
    intro i j w hi hj hm
    obtain ⟨i0, rfl⟩ : ∃ i0, i = i0 + 1 := ⟨i - 1, by omega⟩
    have hc : ¬ j ≤ b.threadhi := by omega
    refine ⟨fun h => ?_, fun _ => by simp only [threadLoop, hc, if_false]⟩
    omega
  | succ m ih =>
    intro i j w hi hj hm
    obtain ⟨i0, rfl⟩ : ∃ i0, i = i0 + 1 := ⟨i - 1, by omega⟩
    by_cases hc : j ≤ b.threadhi
    · have hw : wrap32 (j + 1) = j + 1 := wrap32_id _ (by omega) (by omega)
      have hk : (1 : Int) ≤ max b.lo 1 := le_max_right _ _
      have hlt : max b.hi 1 < max b.lo 1 * 2 ^ 30 := by
        have : max b.hi 1 < 1073741824 := by omega
        norm_num
        omega
      obtain ⟨ih1, ih2⟩ := ih i0 (j + 1) w (by omega) (by omega) (by omega)
      by_cases hj1 : j = 1
      · subst hj1
        obtain ⟨f0, rfl⟩ : ∃ f0, fuel = f0 + 1 := ⟨fuel - 1, by omega⟩
        by_cases hs : max b.lo 1 ≤ max b.hi 1
        · obtain ⟨v, hv, ho, he⟩ := RunBench_malformed clk (f0 + 1) b hmal (max b.lo 1) w
          refine ⟨fun _ => ⟨v, ?_, ho, he⟩, fun h => absurd ⟨le_refl _, hc, hs⟩ h⟩
          simp only [threadLoop, hc, if_true, sizeLoop, hs, hv]
          rfl
        · refine ⟨fun h => absurd h.2.2 hs, fun _ => ?_⟩
          simp only [threadLoop, hc, if_true, sizeLoop, hs, if_false, res_bind_ok, hw]
          exact ih2 (by omega)
      · have e1 := sizeLoop_skip clk b fuel j hj1 hhi 30 fuel (max b.lo 1) w (by omega) hk hlt
        have hiff : (j + 1 ≤ 1 ∧ 1 ≤ b.threadhi ∧ max b.lo 1 ≤ max b.hi 1) ↔
            (j ≤ 1 ∧ 1 ≤ b.threadhi ∧ max b.lo 1 ≤ max b.hi 1) := by
          constructor <;> intro h <;> refine ⟨by omega, h.2.1, h.2.2⟩
        refine ⟨fun h => ?_, fun h => ?_⟩
        · obtain ⟨v, hv, ho, he⟩ := ih1 (hiff.mpr h)
          refine ⟨v, ?_, ho, he⟩
          simp only [threadLoop, hc, if_true, e1, res_bind_ok, hw]
          exact hv
        · simp only [threadLoop, hc, if_true, e1, res_bind_ok, hw]
          exact ih2 (fun h2 => h (hiff.mp h2))
    · refine ⟨fun h => ?_, fun _ => by simp only [threadLoop, hc, if_false]⟩
      omega

/-- The loop of `main` over the registry when, for every selected descriptor,
no loop counter overflows and no trial has a negative elapsed time: with fuel
for `2^32 + 1` passes the loop either ends normally, and then no selected
descriptor with neither callable form was run, or it ends in `exit(2)` at the
first such descriptor, with the output of the descriptors before it. -/
theorem benchLoop_outcome (clk : Clock) (fuel : Nat) (hf : 4294967297 ≤ fuel)
    (pm : String → String → Bool) (argv : List String) :
    ∀ (bs : List Benchmark) (w : World),
      (∀ b ∈ bs, matchName pm b.name argv = true → sweepInRange b ∧ nonnegTrials clk b) →
      (∃ w1, benchLoop clk fuel pm argv bs w = .ok w1 ∧ ∀ b ∈ bs, ¬ exitsWith2 pm argv b) ∨
        (∃ (pre : List Benchmark) (b : Benchmark) (post : List Benchmark) (w0 v : World),
          bs = pre ++ b :: post ∧ (∀ a ∈ pre, ¬ exitsWith2 pm argv a) ∧ exitsWith2 pm argv b ∧
          benchLoop clk fuel pm argv pre w = .ok w0 ∧
          benchLoop clk fuel pm argv bs w = .exit 2 v ∧ v.out = w0.out ∧
          v.err = w0.err ++ [b.name ++ ": missing function\n"]) := by
  intro bs
  induction bs with
  | nil => intro w _; exact Or.inl ⟨w, rfl, fun b hb => by cases hb⟩
  | cons b rest ih =>
    intro w H
    have Hrest : ∀ a ∈ rest, matchName pm a.name argv = true →
        sweepInRange a ∧ nonnegTrials clk a :=
      fun a ha => H a (List.mem_cons_of_mem _ ha)
    have extend : ∀ (w' : World), ¬ exitsWith2 pm argv b →
        benchLoop clk fuel pm argv [b] w = .ok w' →
        benchLoop clk fuel pm argv (b :: rest) w = benchLoop clk fuel pm argv rest w' →
        (∃ w1, benchLoop clk fuel pm argv (b :: rest) w = .ok w1 ∧
            ∀ a ∈ b :: rest, ¬ exitsWith2 pm argv a) ∨
          (∃ (pre : List Benchmark) (c : Benchmark) (post : List Benchmark) (w0 v : World),
            b :: rest = pre ++ c :: post ∧ (∀ a ∈ pre, ¬ exitsWith2 pm argv a) ∧
            exitsWith2 pm argv c ∧
            benchLoop clk fuel pm argv pre w = .ok w0 ∧
            benchLoop clk fuel pm argv (b :: rest) w = .exit 2 v ∧ v.out = w0.out ∧
            v.err = w0.err ++ [c.name ++ ": missing function\n"]) := by
      intro w' hnb hone hstep
      have hpre : ∀ (pre : List Benchmark) (u : World),
          benchLoop clk fuel pm argv (b :: pre) u =
            (benchLoop clk fuel pm argv [b] u).bind (benchLoop clk fuel pm argv pre) := by
        intro pre u
        simp only [benchLoop]
        split_ifs
        · cases threadLoop clk fuel b fuel b.threadlo u <;> rfl
        · rfl
      rcases ih w' Hrest with ⟨w1, e1, hall⟩ | ⟨pre, c, post, w0, v, e0, hpreb, hc, e1, e2, ho, he⟩
      · left
        refine ⟨w1, by rw [hstep, e1], ?_⟩
        intro a ha
        rcases List.mem_cons.mp ha with rfl | ha
        · exact hnb
        · exact hall a ha
      · right
        refine ⟨b :: pre, c, post, w0, v, by rw [e0]; rfl, ?_, hc, ?_, by rw [hstep, e2], ho, he⟩
        · intro a ha
          rcases List.mem_cons.mp ha with rfl | ha
          · exact hnb
          · exact hpreb a ha
        · rw [hpre pre w, hone, res_bind_ok, e1]
    by_cases hm : matchName pm b.name argv = true
    · obtain ⟨⟨hhi, hlo, hth⟩, hpos⟩ := H b (List.mem_cons_self _ _) hm
      by_cases hmal : malformed b
      · obtain ⟨t1, t2⟩ := threadLoop_malformed clk b fuel (by omega) hmal hhi hth
          (b.threadhi - b.threadlo + 1).toNat fuel b.threadlo w (by omega) hlo (le_refl _)
        by_cases hrun : b.threadlo ≤ 1 ∧ 1 ≤ b.threadhi ∧ max b.lo 1 ≤ max b.hi 1
        · obtain ⟨v, hv, ho, he⟩ := t1 hrun
          right
          refine ⟨[], b, rest, w, v, rfl, (fun a ha => by cases ha), ⟨hm, hmal, hrun⟩, rfl, ?_,
            ho, he⟩
          simp only [benchLoop, hm, if_true, hv]
          rfl
        · have hv := t2 hrun
          refine extend w (fun h => hrun h.2.2) ?_ ?_
          · simp only [benchLoop, hm, if_true, hv, res_bind_ok]
          · simp only [benchLoop, hm, if_true, hv, res_bind_ok]
      · obtain ⟨w1, hv, _⟩ := threadLoop_sweep clk b fuel (by omega)
          (fun n siz => bodyCalls_wellformed b hmal n siz) hpos hhi hth
          (b.threadhi - b.threadlo + 1).toNat fuel b.threadlo w (by omega) hlo (le_refl _)
        refine extend w1 (fun h => hmal h.2.1) ?_ ?_
        · simp only [benchLoop, hm, if_true, hv, res_bind_ok]
        · simp only [benchLoop, hm, if_true, hv, res_bind_ok]
    · refine extend w (fun h => hm h.1) ?_ ?_
      · simp only [benchLoop, hm, if_false, Bool.false_eq_true]
      · simp only [benchLoop, hm, if_false, Bool.false_eq_true]

/-! ## C11: the exit status -/

/-- C11, as stated, fails: with the registry holding one descriptor that has
neither callable form and the thread range `2 .. 2`, and no pattern, `main`
ends with exit code `0`: the descriptor is selected but `RunBench` returns
before `runN` for the thread count `2`. -/
theorem unrun_malformed_exits_0 :
    matchName (fun _ _ => true) ghostBench.name ["prog"] = true ∧ malformed ghostBench ∧
      ∀ fuel : Nat, main stillClock (fuel + 2) (fun _ _ => true) ["prog"] [ghostBench] World.init
        = .exit 0 World.init := by
  refine ⟨rfl, by decide, fun fuel => ?_⟩
  rfl

/-- C11, amended: when for every selected descriptor no loop counter
overflows (`hi < 2^30`, `-2^31 <= threadlo`, `threadhi < 2^31 - 1`) and no
trial has a negative elapsed time, `main` (with fuel for `2^32 + 1` passes)
ends with exit code `2` if some selected descriptor with neither callable form
is run with the thread count 1 (`threadlo <= 1 <= threadhi` and
`max(lo,1) <= max(hi,1)`), and with exit code `0` otherwise, in particular
when no descriptor is selected.  When it exits with `2`, what has been printed
is what the descriptors before the first such descriptor printed, and the
diagnostic naming that descriptor is the last line on standard error. -/
theorem exit_status (clk : Clock) (fuel : Nat) (hf : 4294967297 ≤ fuel)
    (pm : String → String → Bool) (argv : List String) (bs : List Benchmark) (w : World)
    (H : ∀ b ∈ bs, matchName pm b.name argv = true → sweepInRange b ∧ nonnegTrials clk b) :
    ∃ (c : Int) (v : World), main clk fuel pm argv bs w = .exit c v ∧
      (c = 2 ↔ ∃ b ∈ bs, exitsWith2 pm argv b) ∧
      (c = 0 ↔ ¬ ∃ b ∈ bs, exitsWith2 pm argv b) ∧
      (c = 2 →
        ∃ (pre : List Benchmark) (b : Benchmark) (post : List Benchmark) (w0 : World),
          bs = pre ++ b :: post ∧ (∀ a ∈ pre, ¬ exitsWith2 pm argv a) ∧ exitsWith2 pm argv b ∧
          benchLoop clk fuel pm argv pre w = .ok w0 ∧ v.out = w0.out ∧
          v.err = w0.err ++ [b.name ++ ": missing function\n"]) ∧
      ((∀ b ∈ bs, matchName pm b.name argv = false) → c = 0 ∧ v = w) := by
  rcases benchLoop_outcome clk fuel hf pm argv bs w H with
    ⟨w1, e1, hall⟩ | ⟨pre, b, post, w0, v, e0, hpre, hb, e1, e2, ho, he⟩
  · have hno : ¬ ∃ b ∈ bs, exitsWith2 pm argv b := fun ⟨b, hb, hx⟩ => hall b hb hx
    refine ⟨0, w1, by simp only [main, e1, res_bind_ok], ?_, ?_, ?_, ?_⟩
    · exact ⟨fun h => by omega, fun h => absurd h hno⟩
    · exact ⟨fun _ => hno, fun _ => rfl⟩
    · intro h
      omega
    · intro hnone
      refine ⟨rfl, ?_⟩
      have hfil : bs.filter (fun b => matchName pm b.name argv) = [] := by
        rw [List.filter_eq_nil_iff]
        intro a ha
        rw [hnone a ha]
        simp
      rw [benchLoop_filter, hfil] at e1
      cases e1
      rfl
  · have hyes : ∃ b ∈ bs, exitsWith2 pm argv b := ⟨b, by rw [e0]; simp, hb⟩
    refine ⟨2, v, by simp only [main, e2]; rfl, ?_, ?_, ?_, ?_⟩
    · exact ⟨fun _ => hyes, fun _ => rfl⟩
    · exact ⟨fun h => by omega, fun h => absurd hyes h⟩
    · intro _
      exact ⟨pre, b, post, w0, e0, hpre, hb, e1, ho, he⟩
    · intro hnone
      exfalso
      have := hnone b (by rw [e0]; simp)
      rw [hb.1] at this
      cases this

/-- A descriptor with neither callable form has no trial that returns. -/
theorem nonnegTrials_malformed (clk : Clock) (b : Benchmark) (h : malformed b) :
    nonnegTrials clk b := by
  intro n siz v0 v hv
  rw [runN_none clk b n siz v0 (bodyCalls_malformed b h n siz)] at hv
  cases hv

/-- An instance of `exit_status`: no pattern, and a registry in which a
descriptor with neither callable form and the thread range `1 .. 1` stands
between two descriptors with a body.  The exit code is `2`. -/
theorem exit_status_witness :
    (∀ b ∈ mixedRegistry, matchName (fun _ _ => true) b.name ["prog"] = true →
        sweepInRange b ∧ nonnegTrials stillClock b) ∧
      ∃ v, main stillClock 4294967297 (fun _ _ => true) ["prog"] mixedRegistry World.init
        = .exit 2 v := by
  have H : ∀ b ∈ mixedRegistry, matchName (fun _ _ => true) b.name ["prog"] = true →
      sweepInRange b ∧ nonnegTrials stillClock b := by
    intro b hb _
    simp only [mixedRegistry, List.mem_cons, List.mem_singleton, List.not_mem_nil, or_false]
      at hb
    have hidle : nonnegTrials stillClock idleBench := fun n siz => still_nonneg siz n
    rcases hb with rfl | rfl | rfl
    · exact ⟨by decide, hidle⟩
    · exact ⟨by decide, nonnegTrials_malformed stillClock emptyBench (by decide)⟩
    · exact ⟨by decide, hidle⟩
  obtain ⟨c, v, h1, h2, _⟩ := exit_status stillClock 4294967297 (le_refl _)
    (fun _ _ => true) ["prog"] mixedRegistry World.init H
  have hc : c = 2 := h2.mpr ⟨emptyBench, by simp [mixedRegistry], rfl, by decide, by decide⟩
  subst hc
  exact ⟨H, v, h1⟩

/-! ## C4: the trials of a body that does no work -/

/-- A descriptor with a body: every trial returns. -/
theorem runN_wellformed (clk : Clock) (b : Benchmark) (hb : ¬ malformed b) (n siz : Int)
    (w : World) : ∃ v, runN clk b n siz w = .ok v := by
  cases hc : bodyCalls b n siz with
  | none => exact absurd hc (bodyCalls_wellformed b hb n siz)
  | some cs => exact ⟨_, runN_some clk b n siz w cs hc⟩

/-- The trace of the loop of `RunBench` is empty when the loop condition fails. -/
theorem loopTrials_exit (clk : Clock) (b : Benchmark) (siz : Int) (fuel : Nat) (n : Int)
    (w : World) (h : ¬ (w.ns < 1000000000 ∧ n < 1000000000)) :
    loopTrials clk b siz (fuel + 1) n w = [] := by
  simp only [loopTrials, h, if_false]

/-- One pass of the trace of the loop of `RunBench` when `ns/n` is `0`. -/
theorem loopTrials_idle_step (clk : Clock) (b : Benchmark) (siz : Int) (fuel : Nat)
    (n n1 : Int) (w w1 : World) (hn : 0 < n) (hn9 : n < 1000000000)
    (hq : Int.tdiv w.ns n = 0) (hr : round (nextCount n 1000000000) = some n1)
    (hrun : runN clk b n1 siz w = .ok w1) :
    loopTrials clk b siz (fuel + 1) n w = (n1, w1) :: loopTrials clk b siz fuel n1 w1 := by
  have hns : w.ns < 1000000000 := by
    have := tdiv_zero_lt w.ns n hn hq
    omega
  have hn0 : n ≠ 0 := by omega
  have hw : wrap64 0 = 0 := by decide
  have he : estimate 0 = 1000000000 := rfl
  simp only [loopTrials, hns, hn9, and_self, if_true, hn0, if_false, hq, hw, ne_eq,
    not_true_eq_false, false_and, he, hr, hrun]

/-- The trace `loopTrials` is the trace of `trialLoop`: when the loop returns,
the trials it has logged are those of the trace, with the same counts in the
same order, and the state it returns is the state of the last trial of the
trace (the entry state when the loop ran no trial). -/
theorem loopTrials_log (clk : Clock) (b : Benchmark) (siz : Int) :
    ∀ (fuel : Nat) (n : Int) (w : World) (r : Int × World),
      trialLoop clk b siz fuel n w = .ok r →
      r.2.trials = w.trials ++ (loopTrials clk b siz fuel n w).map (fun t => (b.name, t.1, siz)) ∧
        ((loopTrials clk b siz fuel n w).getLast?).getD (n, w) = r := by
  intro fuel
  induction fuel with
  | zero => intro n w r h; simp only [trialLoop] at h; cases h
  | succ fuel ih =>
    intro n w r h
    by_cases hc : w.ns < 1000000000 ∧ n < 1000000000
    · simp only [trialLoop, loopTrials, hc, and_self, if_true] at h ⊢
      by_cases hn0 : n = 0
      · simp only [hn0, if_true] at h; cases h
      · simp only [hn0, if_false] at h ⊢
        by_cases hz : wrap64 (Int.tdiv w.ns n) ≠ 0 ∧ wrap32 (wrap64 (Int.tdiv w.ns n)) = 0
        · rw [if_pos hz] at h; cases h
        · rw [if_neg hz] at h ⊢
          cases hr : round (nextCount n (estimate (wrap64 (Int.tdiv w.ns n)))) with
          | none => rw [hr] at h; cases h
          | some n1 =>
            simp only [hr] at h ⊢
            cases hrun : runN clk b n1 siz w with
            | ok w1 =>
              rw [hrun, res_bind_ok] at h
              dsimp only
              obtain ⟨i1, i2⟩ := ih n1 w1 r h
              obtain ⟨_, _, t1⟩ := runN_frame clk b n1 siz w w1 hrun
              refine ⟨?_, ?_⟩
              · rw [i1, t1]
                simp only [List.map_cons, List.append_assoc, List.singleton_append]
              · rw [← i2]
                cases hl : loopTrials clk b siz fuel n1 w1 with
                | nil => rfl
                | cons a l =>
                  rw [List.getLast?_cons_cons, List.getLast?_eq_getLast (a :: l) (by simp)]
                  rfl
            | exit c v => rw [hrun] at h; cases h
            | divByZero v => rw [hrun] at h; cases h
            | hang v => rw [hrun] at h; cases h
            | fuel v => rw [hrun] at h; cases h
    · rw [trialLoop_exit clk b siz fuel n w hc] at h
      cases h
      rw [loopTrials_exit clk b siz fuel n w hc]
      exact ⟨by simp, rfl⟩

/-- C4, amended: for a descriptor with a body, when every trial that `RunBench`
runs returns with `ns/n = 0`, `RunBench` (with fuel for six passes or more)
returns after the six trials `n = 1, 100, 10^4, 10^6, 10^8, 2*10^9`, and it
has printed exactly one line, which carries the count `2000000000` and the
`ns/op` value `0`. -/
theorem idle_benchmark_line (clk : Clock) (b : Benchmark) (siz : Int) (fuel : Nat)
    (hf : 6 ≤ fuel) (w : World) (hb : ¬ malformed b) (H : idleRun clk fuel b siz w) :
    ∃ w1 line, RunBench clk fuel b 1 siz w = .ok w1 ∧ w1.out = w.out ++ [line] ∧
      line.n = 2000000000 ∧ line.nsPerOp = 0 ∧ 0 ≤ line.nsPerOp ∧ line.name = b.name ∧
      (benchTrials clk fuel b siz w).map Prod.fst = idleCounts ∧
      w1.trials = w.trials ++ idleCounts.map (fun n => (b.name, n, siz)) := by
  obtain ⟨f, rfl⟩ : ∃ f, fuel = f + 1 + 1 + 1 + 1 + 1 + 1 := ⟨fuel - 6, by omega⟩
  obtain ⟨v1, r1⟩ := runN_wellformed clk b hb 1 siz w
  obtain ⟨v2, r2⟩ := runN_wellformed clk b hb 100 siz v1
  obtain ⟨v3, r3⟩ := runN_wellformed clk b hb 10000 siz v2
  obtain ⟨v4, r4⟩ := runN_wellformed clk b hb 1000000 siz v3
  obtain ⟨v5, r5⟩ := runN_wellformed clk b hb 100000000 siz v4
  obtain ⟨v6, r6⟩ := runN_wellformed clk b hb 2000000000 siz v5
  have e0 : benchTrials clk (f + 1 + 1 + 1 + 1 + 1 + 1) b siz w
      = (1, v1) :: loopTrials clk b siz (f + 1 + 1 + 1 + 1 + 1 + 1) 1 v1 := by
    simp only [benchTrials, r1]
  have q1 : Int.tdiv v1.ns 1 = 0 := H (1, v1) (by rw [e0]; simp)
  have e1 := loopTrials_idle_step clk b siz (f + 1 + 1 + 1 + 1 + 1) 1 100 v1 v2 (by decide)
    (by decide) q1 (by decide) r2
  have q2 : Int.tdiv v2.ns 100 = 0 := H (100, v2) (by rw [e0, e1]; simp)
  have e2 := loopTrials_idle_step clk b siz (f + 1 + 1 + 1 + 1) 100 10000 v2 v3 (by decide)
    (by decide) q2 (by decide) r3
  have q3 : Int.tdiv v3.ns 10000 = 0 := H (10000, v3) (by rw [e0, e1, e2]; simp)
  have e3 := loopTrials_idle_step clk b siz (f + 1 + 1 + 1) 10000 1000000 v3 v4 (by decide)
    (by decide) q3 (by decide) r4
  have q4 : Int.tdiv v4.ns 1000000 = 0 := H (1000000, v4) (by rw [e0, e1, e2, e3]; simp)
  have e4 := loopTrials_idle_step clk b siz (f + 1 + 1) 1000000 100000000 v4 v5 (by decide)
    (by decide) q4 (by decide) r5
  have q5 : Int.tdiv v5.ns 100000000 = 0 :=
    H (100000000, v5) (by rw [e0, e1, e2, e3, e4]; simp)
  have e5 := loopTrials_idle_step clk b siz (f + 1) 100000000 2000000000 v5 v6 (by decide)
    (by decide) q5 (by decide) r6
  have q6 : Int.tdiv v6.ns 2000000000 = 0 :=
    H (2000000000, v6) (by rw [e0, e1, e2, e3, e4, e5]; simp)
  have e6 := loopTrials_exit clk b siz f 2000000000 v6
    (by intro h; exact absurd h.2 (by decide))
  obtain ⟨w1, line, h1, h2, h3, h4, h5, _, _, h8⟩ :=
    idle_chain clk b siz (f + 1 + 1 + 1 + 1 + 1 + 1) hf w v1 v2 v3 v4 v5 v6
      r1 q1 r2 q2 r3 q3 r4 q4 r5 q5 r6 q6
  refine ⟨w1, line, h1, h2, h3, h4, by rw [h4], h5, ?_, h8⟩
  rw [e0, e1, e2, e3, e4, e5, e6]
  rfl

/-- On the clock `pacedClock` the trial that starts at the second reading takes
`1` ns: the clock advances, and `ns/n` is not `0` for every state. -/
theorem paced_not_idleTrials : ¬ idleTrials pacedClock idleBench 1 := by
  intro h
  obtain ⟨w1, h1, h2⟩ := h 1 { World.init with tick := 1 }
  have e : runN pacedClock idleBench 1 1 { World.init with tick := 1 }
      = .ok { World.init with t0 := 1, ns := 1, tick := 3, trials := [("idle", 1, 1)] } := by
    decide
  rw [e] at h1
  cases h1
  revert h2
  decide

/-- An instance of `idle_benchmark_line`: the body that makes no call, on a
clock that advances between the trials only (readings `1, 1, 2, 2, 3, 3, ...`). -/
theorem idle_benchmark_line_witness :
    ¬ malformed idleBench ∧ idleRun pacedClock 6 idleBench 1 World.init ∧
      ∃ w1 line, RunBench pacedClock 6 idleBench 1 1 World.init = .ok w1 ∧ w1.out = [line] ∧
        line.n = 2000000000 ∧ line.nsPerOp = 0 ∧
        (benchTrials pacedClock 6 idleBench 1 World.init).map Prod.fst = idleCounts := by
  have hb : ¬ malformed idleBench := by decide
  have hr : idleRun pacedClock 6 idleBench 1 World.init := by
    set_option maxRecDepth 100000 in decide
  obtain ⟨w1, line, h1, h2, h3, h4, _, _, h7, _⟩ :=
    idle_benchmark_line pacedClock idleBench 1 6 (by decide) World.init hb hr
  exact ⟨hb, hr, w1, line, h1, by simpa [World.init] using h2, h3, h4, h7⟩

end Re2Bench
